import Mathlib

/-!
# Verification of the subtitle-analyzer batch enhancement orchestrator

Shallow embedding of the Python sources:
* `app/services/ai_word_serviceV2.py` — the `AIWordService` orchestrator:
  `_fetch_analysis_targets`, `enhance_words_hybrid`, `_process_batch_v3`,
  `_save_v3_results`, `_build_ai_payload`;
* `app/agent/graph.py` / `app/agent/nodes.py` — the bounded-retry
  Extract → Generate → Validate state machine;
* `app/models.py` / `app/schemas.py` — the row types and the
  `AIWordEnhanceResponseV4` response schema.

The relational store is modelled as explicit lists of rows plus primary-key
counters; SQLAlchemy's in-place mutation of a fetched row object is modelled
as a keyed update of the row carrying the same primary key.  The external
LLM is modelled as an oracle parameter; an exception thrown inside the
`try` block of `_process_batch_v3` (network, parse or save failure) is the
`Except.error` case of the oracle outcome.
-/

namespace SubtitleAnalyzer

/-- `WordDTO` from `ai_word_serviceV2.py` (frozen dataclass). -/
structure WordDTO where
  word_id : Nat
  base_form : String
deriving Repr, DecidableEq

/-- `SentenceTaskDTO` from `ai_word_serviceV2.py`: one sentence together with
the candidate words whose first occurrence is that sentence. -/
structure SentenceTaskDTO where
  sentence_id : Nat
  sentence_text : String
  words : List WordDTO
deriving Repr, DecidableEq

/-- One `{"id": ..., "base": ...}` object of the payload's `data[].words`. -/
structure PayloadWord where
  id : Nat
  base : String
deriving Repr, DecidableEq

/-- One `{"id", "text", "words"}` object of the payload's `data` section. -/
structure PayloadSentence where
  id : Nat
  text : String
  words : List PayloadWord
deriving Repr, DecidableEq

/-- One `{"gid", "wids"}` object of the payload's `groups` section. -/
structure PayloadGroup where
  gid : Nat
  wids : List Nat
deriving Repr, DecidableEq

/-- The JSON payload assembled by `AIWordService._build_ai_payload`. -/
structure Payload where
  data : List PayloadSentence
  groups : List PayloadGroup
deriving Repr, DecidableEq

/-- `SentenceTranslationV4` from `app/schemas.py`. -/
structure SentenceTranslationV4 where
  s_id : Nat
  tr_ko : String
deriving Repr, DecidableEq

/-- `WordDefinitionV4` from `app/schemas.py`. -/
structure WordDefinitionV4 where
  w_id : Nat
  m : String
  r : String
  lv : String
deriving Repr, DecidableEq

/-- `ExampleV4` from `app/schemas.py`. -/
structure ExampleV4 where
  gid : Nat
  ex_ja : String
  ex_ko : String
  wids : List Nat
deriving Repr, DecidableEq

/-- `AIWordEnhanceResponseV4` from `app/schemas.py`. -/
structure AIWordEnhanceResponseV4 where
  trans : List SentenceTranslationV4
  words : List WordDefinitionV4
  exs : List ExampleV4
deriving Repr, DecidableEq

/-- `JapaneseWordMetadata` row (`app/models.py`), as reachable 1:1 from its
`WordEntry`. -/
structure JapaneseWordMetadataRow where
  reading : Option String
  jlpt_level : Option String
deriving Repr, DecidableEq

/-- `WordEntry` row (`app/models.py`), with its 1:1 `japanese_metadata`. -/
structure WordEntryRow where
  id : Nat
  subtitle_id : Nat
  first_occurrence_id : Option Nat
  base_form : String
  is_valid : Bool
  japanese_metadata : JapaneseWordMetadataRow
deriving Repr, DecidableEq

/-- `SubtitleSentence` row (`app/models.py`), restricted to the columns the
service reads. -/
structure SentenceRow where
  id : Nat
  sentence_text : String
deriving Repr, DecidableEq

/-- `SubtitleTranslation` row (`app/models.py`). -/
structure SubtitleTranslationRow where
  id : Nat
  subtitle_sentence_id : Nat
  language_code : String
  translated_text : String
deriving Repr, DecidableEq

/-- `ExampleSentence` row (`app/models.py`). -/
structure ExampleSentenceRow where
  id : Nat
  sentence_text : String
deriving Repr, DecidableEq

/-- `ExampleTranslation` row (`app/models.py`). -/
structure ExampleTranslationRow where
  example_id : Nat
  language_code : String
  translated_text : String
deriving Repr, DecidableEq

/-- `WordLearningContent` row (`app/models.py`). -/
structure WordLearningContentRow where
  word_entry_id : Nat
  example_id : Option Nat
  meaning : String
  usage_tip : String
  language_code : String
deriving Repr, DecidableEq

/-- The relational store seen through the SQLModel `Session`: one list per
table, plus autoincrement counters for the primary keys the service asks the
database for (`session.flush` on `ExampleSentence`, insert of
`SubtitleTranslation`). -/
structure DBState where
  word_entries : List WordEntryRow
  sentences : List SentenceRow
  subtitle_translations : List SubtitleTranslationRow
  example_sentences : List ExampleSentenceRow
  example_translations : List ExampleTranslationRow
  word_learning_contents : List WordLearningContentRow
  next_translation_id : Nat
  next_example_id : Nat
deriving Repr, DecidableEq

/-! ## Chunking (`[lst[i:i+n] for i in range(0, len(lst), n)]`) -/

/-- Fuel-indexed slicing loop; `fuel` only bounds the recursion depth (the
source's `range(0, len(lst), n)` makes at most `len(lst)` steps). -/
def chunkListGo (fuel n : Nat) (l : List α) : List (List α) :=
  match fuel, l with
  | _, [] => []
  | 0, _ :: _ => []
  | fuel + 1, a :: rest =>
    if n = 0 then []
    else (a :: rest).take n :: chunkListGo fuel n ((a :: rest).drop n)

/-- Slicing a list into consecutive chunks of `n`, as done by the
orchestrator's `chunks = [sentence_tasks[i:i+batch_size] ...]` and by the
payload builder's `all_word_ids[i:i+3]` loop.  (`n = 0` never occurs in the
source; Python would raise on the `range` step.) -/
def chunkList (n : Nat) (l : List α) : List (List α) :=
  chunkListGo l.length n l

/-! ## `AIWordService._build_ai_payload` -/

/-- `max(len(task.words) for task in chunk) if chunk else 0`. -/
def maxWordsInSentence (chunk : List SentenceTaskDTO) : Nat :=
  if chunk.isEmpty then 0
  else (chunk.map (fun task => task.words.length)).foldr max 0

/-- The `all_word_ids` list built by the interleaving double loop:
`for i in range(max_words_in_sentence): for task in chunk:
if i < len(task.words): all_word_ids.append(task.words[i].word_id)`. -/
def interleavedWordIds (chunk : List SentenceTaskDTO) : List Nat :=
  (List.range (maxWordsInSentence chunk)).flatMap (fun i =>
    chunk.filterMap (fun task => (task.words[i]?).map (fun w => w.word_id)))

/-- `AIWordService._build_ai_payload`: the `data` section pairs each sentence
with its words; the `groups` section chunks the interleaved word ids into
threes with sequential `gid`s (`(i // 3) + 1` at slice start `i` is the
1-based position of the slice). -/
def build_ai_payload (chunk : List SentenceTaskDTO) : Payload :=
  { data := chunk.map (fun task =>
      { id := task.sentence_id
        text := task.sentence_text
        words := task.words.map (fun w => { id := w.word_id, base := w.base_form }) })
    groups := (chunkList 3 (interleavedWordIds chunk)).enum.map
      (fun p => { gid := p.1 + 1, wids := p.2 }) }

/-- The word-id list `[w.word_id for task in chunk for w in task.words]`
used by `_save_v3_results`; it is also the candidate word id set of the
batch. -/
def batchWordIds (chunk : List SentenceTaskDTO) : List Nat :=
  chunk.flatMap (fun task => task.words.map (fun w => w.word_id))

/-- The per-sentence buckets of word ids, in bucket (= chunk) order. -/
def wordRows (chunk : List SentenceTaskDTO) : List (List Nat) :=
  chunk.map (fun task => task.words.map (fun w => w.word_id))

/-- Round `i` of the interleaving: the `i`-th word id of every bucket that
still has one, in bucket order. -/
def colAt (rows : List (List Nat)) (i : Nat) : List Nat :=
  rows.filterMap (fun r => r[i]?)

/-- The interleaving loop expressed over the buckets: rounds `0..m-1`
concatenated. -/
def ilv (m : Nat) (rows : List (List Nat)) : List Nat :=
  (List.range m).flatMap (colAt rows)

/-- Modelled from the spec's wording of the interleaving step: "repeatedly
take one word from each non-exhausted bucket, in bucket order, until all
buckets are exhausted". -/
def roundRobinSpec (rows : List (List Nat)) : List Nat :=
  if h : rows.all List.isEmpty then []
  else rows.filterMap List.head? ++ roundRobinSpec (rows.map List.tail)
termination_by (rows.map List.length).sum
decreasing_by
  simp only [List.all_eq_true, Bool.not_eq_true] at h
  push_neg at h
  obtain ⟨r, hr, hne⟩ := h
  have mono : ∀ L : List (List Nat),
      ((L.map List.tail).map List.length).sum ≤ (L.map List.length).sum := by
    intro L
    induction L with
    | nil => simp
    | cons y ys ih =>
      have hy : y.tail.length ≤ y.length := by cases y <;> simp
      simp only [List.map_cons, List.sum_cons]
      omega
  have strict : ∀ L : List (List Nat), r ∈ L →
      ((L.map List.tail).map List.length).sum < (L.map List.length).sum := by
    intro L
    induction L with
    | nil => intro hx; cases hx
    | cons y ys ih =>
      intro hx
      rcases List.mem_cons.mp hx with rfl | hx
      · have h1 : r.tail.length < r.length := by
          cases r with
          | nil => simp at hne
          | cons a t => simp
        have h2 := mono ys
        simp only [List.map_cons, List.sum_cons]
        omega
      · have h1 := ih hx
        have h2 : y.tail.length ≤ y.length := by cases y <;> simp
        simp only [List.map_cons, List.sum_cons]
        omega
  exact strict rows hr

/-! ## The retry state machine (`app/agent/graph.py`, `app/agent/nodes.py`) -/

/-- One generated word-entry dict; `validate_result` probes the keys
`"meaning"` and `"example"` with `entry.get`, so each is an optional string
(`none` = key absent). -/
structure GenEntry where
  word : Option String
  meaning : Option String
  example' : Option String
deriving Repr, DecidableEq

/-- Python falsiness of `entry.get(key)`: `None` or the empty string. -/
def falsyStr : Option String → Bool
  | none => true
  | some s => s.isEmpty

/-- `AgentState` from `app/agent/state.py`. -/
structure AgentState where
  subtitle_raw : String
  selected_words : List String
  word_entries : List GenEntry
  retry_count : Nat
  error : Option String
deriving Repr, DecidableEq

/-- The error produced by `validate_result` for a given `word_entries` list:
`none` when validation passes. -/
def validCheck (entries : List GenEntry) : Option String :=
  if entries.isEmpty then some "단어장이 생성되지 않았습니다."
  else if (entries.find? (fun e => falsyStr e.meaning || falsyStr e.example')).isSome then
    some "필수 필드가 누락되었습니다."
  else none

/-- `validate_result` from `app/agent/nodes.py`: on failure record the error
and increment the retry counter, on success clear the error. -/
def validate_result (s : AgentState) : AgentState :=
  match validCheck s.word_entries with
  | some e => { s with error := some e, retry_count := s.retry_count + 1 }
  | none => { s with error := none }

/-- `decide_next_node` from `app/agent/graph.py`:
`if state["error"] is not None and state["retry_count"] < 3: return "retry"`,
`return "end"`. -/
def decide_next_node (s : AgentState) : String :=
  if s.error.isSome && decide (s.retry_count < 3) then "retry" else "end"

/-- The graph's nodes. -/
inductive Node where
  | extract
  | generate
  | validate
  | done
deriving Repr, DecidableEq

/-- A point of the run: current node, current state, number of `generate`
invocations made so far. -/
structure RunPoint where
  node : Node
  state : AgentState
  genCalls : Nat
deriving Repr, DecidableEq

/-- One transition of the compiled graph.  The LLM outputs are oracles:
`extractOracle` is the word list the extract node's chain returns,
`genOracle k` the entry list the generate node's chain returns on its
`k`-th invocation (0-based).  After `validate` the conditional edge
`decide_next_node` picks `generate` or `END`. -/
def stepOnce (extractOracle : List String) (genOracle : Nat → List GenEntry)
    (p : RunPoint) : RunPoint :=
  match p.node with
  | Node.extract =>
    { p with
      node := Node.generate
      state := { p.state with selected_words := extractOracle, retry_count := 0 } }
  | Node.generate =>
    { node := Node.validate
      state := { p.state with word_entries := genOracle p.genCalls }
      genCalls := p.genCalls + 1 }
  | Node.validate =>
    let s' := validate_result p.state
    if decide_next_node s' = "retry" then
      { p with node := Node.generate, state := s' }
    else
      { p with node := Node.done, state := s' }
  | Node.done => p

/-- Run the graph for at most `fuel` transitions, stopping at `END`. -/
def runMachine (extractOracle : List String) (genOracle : Nat → List GenEntry)
    (fuel : Nat) (p : RunPoint) : RunPoint :=
  match fuel with
  | 0 => p
  | fuel + 1 =>
    match p.node with
    | Node.done => p
    | _ => runMachine extractOracle genOracle fuel (stepOnce extractOracle genOracle p)

/-- The initial point: entry node `extract`, `generate` not yet called. -/
def initPoint (raw : String) : RunPoint :=
  { node := Node.extract
    state := { subtitle_raw := raw, selected_words := [], word_entries := []
               retry_count := 0, error := none }
    genCalls := 0 }

/-! ## `AIWordService._save_v3_results` -/

/-- `context_id_map = {task.sentence_id: task.sentence_id for task in chunk}`
followed by `.get(trans.s_id)` and the truthiness guard
`if not db_sent_id: continue` (which also skips a resolved id of `0`). -/
def resolveSentenceId (chunk : List SentenceTaskDTO) (sid : Nat) : Option Nat :=
  if (chunk.map (fun t => t.sentence_id)).contains sid && sid != 0 then some sid
  else none

/-- The rows the phase-1 `select` returns: translations of this batch's
sentences with language code `"ko"`. -/
def existingKoTranslations (db : DBState) (chunk : List SentenceTaskDTO) :
    List SubtitleTranslationRow :=
  db.subtitle_translations.filter (fun t =>
    (chunk.map (fun task => task.sentence_id)).contains t.subtitle_sentence_id
      && t.language_code == "ko")

/-- `trans_map = {t.subtitle_sentence_id: t for t in existing_translations}`:
a Python dict comprehension keeps the LAST row per key, so the lookup is a
`find?` over the reversed list; the dict stores the live row object, modelled
by its primary key. -/
def transMapLookup (existing : List SubtitleTranslationRow) (sid : Nat) : Option Nat :=
  (existing.reverse.find? (fun t => t.subtitle_sentence_id == sid)).map (fun t => t.id)

/-- In-place mutation `trans_map[db_sent_id].translated_text = trans.tr_ko`
of the row object with primary key `pk`. -/
def patchTranslationText (pk : Nat) (txt : String) (db : DBState) : DBState :=
  { db with subtitle_translations := db.subtitle_translations.map (fun t =>
      if t.id = pk then { t with translated_text := txt } else t) }

/-- The body of the phase-1 `for trans in ai_data.trans` loop for one
response entry (`existing` is the select result, computed once before the
loop). -/
def phase1Step (chunk : List SentenceTaskDTO) (existing : List SubtitleTranslationRow)
    (db : DBState) (tr : SentenceTranslationV4) : DBState :=
  match resolveSentenceId chunk tr.s_id with
  | none => db
  | some d =>
    match transMapLookup existing d with
    | some pk => patchTranslationText pk tr.tr_ko db
    | none =>
      { db with
        subtitle_translations := db.subtitle_translations ++
          [{ id := db.next_translation_id, subtitle_sentence_id := d
             language_code := "ko", translated_text := tr.tr_ko }]
        next_translation_id := db.next_translation_id + 1 }

/-- Phase 1 of `_save_v3_results`: upsert of `SubtitleTranslation` rows. -/
def savePhase1 (db : DBState) (chunk : List SentenceTaskDTO)
    (trans : List SentenceTranslationV4) : DBState :=
  trans.foldl (phase1Step chunk (existingKoTranslations db chunk)) db

/-- The body of the phase-2 `for ex in ai_data.exs` loop: insert one
`ExampleSentence` (flush assigns the next primary key) plus its
`ExampleTranslation`, and record `gid ↦ new id` in `example_id_map`. -/
def phase2Step (acc : DBState × List (Nat × Nat)) (ex : ExampleV4) :
    DBState × List (Nat × Nat) :=
  let db := acc.1
  let eid := db.next_example_id
  ( { db with
      example_sentences := db.example_sentences ++ [{ id := eid, sentence_text := ex.ex_ja }]
      example_translations := db.example_translations ++
        [{ example_id := eid, language_code := "ko", translated_text := ex.ex_ko }]
      next_example_id := eid + 1 }
    , acc.2 ++ [(ex.gid, eid)] )

/-- Phase 2 of `_save_v3_results`. -/
def savePhase2 (db : DBState) (exs : List ExampleV4) : DBState × List (Nat × Nat) :=
  exs.foldl phase2Step (db, [])

/-- Lookup in `example_id_map` (a Python dict built by successive
assignments: the LAST entry per key wins). -/
def exampleMapLookup (emap : List (Nat × Nat)) (gid : Nat) : Option Nat :=
  (emap.reverse.find? (fun p => p.1 == gid)).map (fun p => p.2)

/-- `word_map = {w_id: session.get(WordEntry, w_id) for w_id in word_ids}`
followed by `word_map.get(def_res.w_id)` and `if not word_entry: continue`. -/
def wordMapGet (db : DBState) (word_ids : List Nat) (w : Nat) : Option WordEntryRow :=
  if word_ids.contains w then db.word_entries.find? (fun e => e.id = w)
  else none

/-- In-place mutation of the fetched `WordEntry`'s 1:1 metadata:
`word_entry.japanese_metadata.reading = def_res.r` and
`... .jlpt_level = def_res.lv`. -/
def patchWordMetadata (wid : Nat) (r lv : String) (db : DBState) : DBState :=
  { db with word_entries := db.word_entries.map (fun e =>
      if e.id = wid then { e with japanese_metadata := { reading := some r, jlpt_level := some lv } }
      else e) }

/-- The body of the phase-3 `for def_res in ai_data.words` loop:
metadata update, first-group search
(`next((ex.gid for ex in ai_data.exs if def_res.w_id in ex.wids), None)`),
and conditional `WordLearningContent` insert with success counting. -/
def phase3Step (word_ids : List Nat) (exs : List ExampleV4) (emap : List (Nat × Nat))
    (acc : DBState × Nat) (dr : WordDefinitionV4) : DBState × Nat :=
  match wordMapGet acc.1 word_ids dr.w_id with
  | none => acc
  | some we =>
    let db := patchWordMetadata we.id dr.r dr.lv acc.1
    match exs.find? (fun ex => ex.wids.contains dr.w_id) with
    | none => (db, acc.2)
    | some ex0 =>
      match exampleMapLookup emap ex0.gid with
      | none => (db, acc.2)
      | some eid =>
        ( { db with word_learning_contents := db.word_learning_contents ++
            [{ word_entry_id := we.id, example_id := some eid, meaning := dr.m
               usage_tip := "JLPT " ++ dr.lv ++ " 수준의 단어입니다.", language_code := "ko" }] }
          , acc.2 + 1 )

/-- Phase 3 of `_save_v3_results`: word metadata updates and
`WordLearningContent` inserts, counting successes. -/
def savePhase3 (db : DBState) (word_ids : List Nat) (exs : List ExampleV4)
    (emap : List (Nat × Nat)) (words : List WordDefinitionV4) : DBState × Nat :=
  words.foldl (phase3Step word_ids exs emap) (db, 0)

/-- `AIWordService._save_v3_results`.  (`word_map` is built from `session.get`
before phase 1; phases 1 and 2 never touch `word_entries`, so looking the
entries up at phase 3 is observationally the same.) -/
def save_v3_results (db : DBState) (chunk : List SentenceTaskDTO)
    (ai_data : AIWordEnhanceResponseV4) : DBState × Nat :=
  let word_ids := batchWordIds chunk
  let db1 := savePhase1 db chunk ai_data.trans
  let p2 := savePhase2 db1 ai_data.exs
  savePhase3 p2.1 word_ids ai_data.exs p2.2 ai_data.words

/-! ## `AIWordService._fetch_analysis_targets` -/

/-- The fetch `select`: `WordEntry` joined to its first-occurrence
`SubtitleSentence`, filtered by `subtitle_id` and `is_valid == True`.
(The filter for not-yet-analyzed words announced by the inline comment is
absent from the `where` clause.) -/
def fetchRows (db : DBState) (subtitle_id : Nat) :
    List (WordEntryRow × Nat × String) :=
  db.word_entries.filterMap (fun w =>
    if w.subtitle_id = subtitle_id && w.is_valid then
      match w.first_occurrence_id with
      | some fid =>
        (db.sentences.find? (fun s => s.id = fid)).map (fun s => (w, s.id, s.sentence_text))
      | none => none
    else none)

/-- One iteration of the `sentence_map` grouping loop: append the word to the
task of its sentence, creating the task on first sight (dict insertion
order). -/
def insertFetchRow (acc : List SentenceTaskDTO) (r : WordEntryRow × Nat × String) :
    List SentenceTaskDTO :=
  if acc.any (fun t => t.sentence_id = r.2.1) then
    acc.map (fun t =>
      if t.sentence_id = r.2.1 then
        { t with words := t.words ++ [{ word_id := r.1.id, base_form := r.1.base_form }] }
      else t)
  else
    acc ++ [{ sentence_id := r.2.1, sentence_text := r.2.2
              words := [{ word_id := r.1.id, base_form := r.1.base_form }] }]

/-- `AIWordService._fetch_analysis_targets`. -/
def fetch_analysis_targets (db : DBState) (subtitle_id : Nat) : List SentenceTaskDTO :=
  (fetchRows db subtitle_id).foldl insertFetchRow []

/-! ## `AIWordService.enhance_words_hybrid` and `_process_batch_v3` -/

/-- Outcome of the `try` block's fallible prefix in `_process_batch_v3`: the
`await self.llm.ainvoke` network round trip and `self.parser.parse`.
`Except.error` stands for any exception raised there. -/
def GenOutcome := Except String AIWordEnhanceResponseV4

/-- `AIWordService._process_batch_v3` for one chunk, given the generation
outcome for this batch: on success save and return the count, on any
exception inside the `try` block catch it and return `0`. -/
def process_batch_v3 (outcome : GenOutcome) (db : DBState)
    (chunk : List SentenceTaskDTO) : DBState × Nat :=
  match outcome with
  | Except.error _ => (db, 0)
  | Except.ok ai => save_v3_results db chunk ai

/-- Result of one orchestrator run: final store, the per-batch success
counts, their sum (the return value), the number of generation calls issued,
and whether the final `session.commit()` ran. -/
structure EnhanceResult where
  db : DBState
  counts : List Nat
  total : Nat
  gen_calls : Nat
  committed : Bool
deriving Repr, DecidableEq

/-- Processing of one batch inside the orchestrator's task loop: run
`_process_batch_v3` on the current store, append its success count, count
the generation call. -/
def enhanceStep (oracle : Nat → GenOutcome) (acc : DBState × List Nat × Nat)
    (chunk : List SentenceTaskDTO) : DBState × List Nat × Nat :=
  let step := process_batch_v3 (oracle acc.2.2) acc.1 chunk
  (step.1, acc.2.1 ++ [step.2], acc.2.2 + 1)

/-- `AIWordService.enhance_words_hybrid`: fetch, early return `0` when there
is nothing to do, chunk by sentence count, process every batch (each batch
makes exactly one generation call, whose outcome `oracle i` is indexed by
the batch position), sum the per-batch counts, commit. -/
def enhance_words_hybrid (oracle : Nat → GenOutcome) (db : DBState)
    (subtitle_id : Nat) (batch_size : Nat := 3) : EnhanceResult :=
  let sentence_tasks := fetch_analysis_targets db subtitle_id
  if sentence_tasks.isEmpty then
    { db := db, counts := [], total := 0, gen_calls := 0, committed := false }
  else
    let chunks := chunkList batch_size sentence_tasks
    let run := chunks.foldl (enhanceStep oracle) (db, ([] : List Nat), 0)
    { db := run.1, counts := run.2.1, total := run.2.1.sum
      gen_calls := run.2.2, committed := true }

/-! ## The concurrency limiter (`asyncio.Semaphore(3)`) -/

/-- State of the shared `self.semaphore = asyncio.Semaphore(3)` together
with the number of batch tasks currently inside their
`async with self.semaphore` block — by the structure of
`_process_batch_v3`, exactly the tasks whose generation call may be in
flight. -/
structure SemState where
  permits : Nat
  inflight : Nat
deriving Repr, DecidableEq

/-- `asyncio.Semaphore` semantics: `acquire` suspends unless the counter is
positive, then decrements it; leaving the `async with` block releases,
incrementing the counter. -/
inductive SemStep : SemState → SemState → Prop
  | acquire (s : SemState) (h : 0 < s.permits) :
      SemStep s { permits := s.permits - 1, inflight := s.inflight + 1 }
  | release (s : SemState) (h : 0 < s.inflight) :
      SemStep s { permits := s.permits + 1, inflight := s.inflight - 1 }

/-- The semaphore as constructed in `AIWordService.__init__`. -/
def initSemState : SemState := { permits := 3, inflight := 0 }

/-- States reachable during a run of `enhance_words_hybrid`. -/
inductive SemReachable : SemState → Prop
  | init : SemReachable initSemState
  | step {s s' : SemState} : SemReachable s → SemStep s s' → SemReachable s'

/-! ## Specification-side helper definitions used by the theorems -/

/-- Words A, B, C in sentence S1 and D, E in sentence S2 (spec §8 scenario),
with word ids 11, 12, 13, 21, 22. -/
def exampleScenario : List SentenceTaskDTO :=
  [ { sentence_id := 1, sentence_text := "A B C"
      words := [⟨11, "A"⟩, ⟨12, "B"⟩, ⟨13, "C"⟩] }
  , { sentence_id := 2, sentence_text := "D E"
      words := [⟨21, "D"⟩, ⟨22, "E"⟩] } ]

/-- A store with no rows at all. -/
def emptyDB : DBState :=
  { word_entries := [], sentences := [], subtitle_translations := []
    example_sentences := [], example_translations := [], word_learning_contents := []
    next_translation_id := 1, next_example_id := 1 }

/-- A store with one valid word whose metadata marker is already `"N5"`
(enhanced earlier), not `"WAIT"`. -/
def enhancedWordDB : DBState :=
  { word_entries := [
      { id := 7, subtitle_id := 1, first_occurrence_id := some 4
        base_form := "食べる", is_valid := true
        japanese_metadata := { reading := some "たべる", jlpt_level := some "N5" } }]
    sentences := [{ id := 4, sentence_text := "ご飯を食べる" }]
    subtitle_translations := [], example_sentences := [], example_translations := []
    word_learning_contents := [], next_translation_id := 1, next_example_id := 1 }

/-- The word-entry primary keys present in the store; `session.get` succeeds
exactly on these, and no phase of `_save_v3_results` ever adds or removes a
`WordEntry` row. -/
def presentWordIds (db : DBState) : List Nat :=
  db.word_entries.map (fun e => e.id)

/-- The success count one batch yields, as a pure function of the initial
store's word-entry keys, the chunk and the parsed response: a word definition
is counted iff its id is among the batch's word ids, its row exists, and some
response group's `wids` contain it (every response group is resolved into
`example_id_map` by phase 2). -/
def batchSuccessCountSpec (present : List Nat) (chunk : List SentenceTaskDTO)
    (ai : AIWordEnhanceResponseV4) : Nat :=
  ai.words.countP (fun dr =>
    (batchWordIds chunk).contains dr.w_id && present.contains dr.w_id
      && ai.exs.any (fun ex => ex.wids.contains dr.w_id))

/-- The per-batch success counts of a run, batch `k` first. -/
def countsSpec (oracle : Nat → GenOutcome) (present : List Nat) :
    Nat → List (List SentenceTaskDTO) → List Nat
  | _, [] => []
  | k, c :: rest =>
    (match oracle k with
     | Except.error _ => 0
     | Except.ok ai => batchSuccessCountSpec present c ai) :: countsSpec oracle present (k + 1) rest

/-- The `ExampleSentence` rows phase 2 appends, with consecutive primary keys
starting at `n`. -/
def exampleRowsFrom (n : Nat) : List ExampleV4 → List ExampleSentenceRow
  | [] => []
  | ex :: rest => { id := n, sentence_text := ex.ex_ja } :: exampleRowsFrom (n + 1) rest

/-- The `example_id_map` phase 2 builds, with consecutive values starting at
`n`. -/
def exampleMapFrom (n : Nat) : List ExampleV4 → List (Nat × Nat)
  | [] => []
  | ex :: rest => (ex.gid, n) :: exampleMapFrom (n + 1) rest

/-- The `SubtitleTranslation` rows of a table for one `(sentence, "ko")`
key — the unit at which the upsert of phase 1 and the schema's unique
constraint speak. -/
def koRows (rows : List SubtitleTranslationRow) (sid : Nat) :
    List SubtitleTranslationRow :=
  rows.filter (fun t => t.subtitle_sentence_id == sid && t.language_code == "ko")

/-- Well-formedness of the translation table as the database guarantees it:
distinct primary keys, all below the autoincrement counter. -/
def TransWF (db : DBState) : Prop :=
  (db.subtitle_translations.map (fun t => t.id)).Nodup ∧
  ∀ t ∈ db.subtitle_translations, t.id < db.next_translation_id

/-- Invariant carried through the phase-1 loop, relative to the store `db0`
the loop started from: keys stay distinct and bounded, the counter only
grows, and every row whose key predates the loop keeps its
`(sentence, language)` identity — only its text may change. -/
def Phase1Inv (db0 db' : DBState) : Prop :=
  (db'.subtitle_translations.map (fun t => t.id)).Nodup ∧
  (∀ t ∈ db'.subtitle_translations, t.id < db'.next_translation_id) ∧
  db0.next_translation_id ≤ db'.next_translation_id ∧
  ∀ t' ∈ db'.subtitle_translations, t'.id < db0.next_translation_id →
    ∃ t0 ∈ db0.subtitle_translations, t0.id = t'.id ∧
      t'.subtitle_sentence_id = t0.subtitle_sentence_id ∧
      t'.language_code = t0.language_code

/-- The single-sentence chunk matching `oneWordDB`, for the C4 witness. -/
def c4Chunk : List SentenceTaskDTO :=
  [{ sentence_id := 2, sentence_text := "駅まで歩く", words := [⟨3, "歩く"⟩] }]

/-- A response translating `oneWordDB`'s sentence, for the C4 witness. -/
def c4Resp : AIWordEnhanceResponseV4 :=
  { trans := [{ s_id := 2, tr_ko := "역까지 걷다" }], words := [], exs := [] }

/-! ## Lemmas about the interleaving and the grouping -/

theorem interleavedWordIds_eq_ilv (chunk : List SentenceTaskDTO) :
    interleavedWordIds chunk = ilv (maxWordsInSentence chunk) (wordRows chunk) := by
  unfold interleavedWordIds ilv colAt wordRows
  congr 1
  funext i
  rw [List.filterMap_map]
  congr 1
  funext task
  simp [List.getElem?_map]

theorem tail_getElem? (l : List α) (i : Nat) : l.tail[i]? = l[i + 1]? := by
  cases l <;> simp

theorem colAt_succ (rows : List (List Nat)) (i : Nat) :
    colAt rows (i + 1) = colAt (rows.map List.tail) i := by
  unfold colAt
  induction rows with
  | nil => rfl
  | cons r rs ih =>
    simp only [List.map_cons, List.filterMap_cons, tail_getElem?, ih]

theorem ilv_succ (m : Nat) (rows : List (List Nat)) :
    ilv (m + 1) rows = colAt rows 0 ++ ilv m (rows.map List.tail) := by
  unfold ilv
  rw [List.range_succ_eq_map, List.flatMap_cons, List.flatMap_map]
  congr 1
  simp only [Nat.succ_eq_add_one, colAt_succ]

theorem colAt_zero_append_perm (rows : List (List Nat)) :
    (colAt rows 0 ++ (rows.map List.tail).flatten).Perm rows.flatten := by
  induction rows with
  | nil => simp [colAt]
  | cons r rs ih =>
    cases r with
    | nil =>
      simpa [colAt, List.filterMap_cons] using ih
    | cons a t =>
      unfold colAt at ih ⊢
      simp only [List.filterMap_cons, List.getElem?_cons_zero, List.map_cons,
        List.flatten_cons, List.tail_cons, List.cons_append]
      refine List.Perm.cons a ?_
      have h1 : ((rs.filterMap (fun r => r[0]?) ++ t) ++ (rs.map List.tail).flatten).Perm
          ((t ++ rs.filterMap (fun r => r[0]?)) ++ (rs.map List.tail).flatten) :=
        List.Perm.append_right _ List.perm_append_comm
      have h2 : ((t ++ rs.filterMap (fun r => r[0]?)) ++ (rs.map List.tail).flatten).Perm
          (t ++ rs.flatten) := by
        rw [List.append_assoc]
        exact List.Perm.append_left t ih
      rw [show rs.filterMap (fun r => r[0]?) ++ (t ++ (rs.map List.tail).flatten)
          = (rs.filterMap (fun r => r[0]?) ++ t) ++ (rs.map List.tail).flatten from by
        rw [List.append_assoc]]
      exact h1.trans h2

theorem ilv_perm_flatten : ∀ (m : Nat) (rows : List (List Nat)),
    (∀ r ∈ rows, r.length ≤ m) → (ilv m rows).Perm rows.flatten := by
  intro m
  induction m with
  | zero =>
    intro rows h
    have hnil : rows.flatten = [] :=
      List.flatten_eq_nil_iff.mpr
        (fun l hl => List.length_eq_zero.mp (Nat.le_zero.mp (h l hl)))
    simp [ilv, hnil]
  | succ m ih =>
    intro rows h
    rw [ilv_succ]
    have htail : ∀ r ∈ rows.map List.tail, r.length ≤ m := by
      intro r hr
      obtain ⟨r0, hr0, rfl⟩ := List.mem_map.mp hr
      have := h r0 hr0
      cases r0 with
      | nil => simp
      | cons b u => simp at this ⊢; omega
    exact (List.Perm.append_left _ (ih _ htail)).trans (colAt_zero_append_perm rows)

theorem foldr_max_le (l : List Nat) : ∀ x ∈ l, x ≤ l.foldr max 0 := by
  induction l with
  | nil => intro x hx; cases hx
  | cons a t ih =>
    intro x hx
    rcases List.mem_cons.mp hx with rfl | hx
    · exact le_max_left _ _
    · exact le_trans (ih x hx) (le_max_right _ _)

theorem wordRows_length_le (chunk : List SentenceTaskDTO) :
    ∀ r ∈ wordRows chunk, r.length ≤ maxWordsInSentence chunk := by
  intro r hr
  obtain ⟨t, ht, rfl⟩ := List.mem_map.mp hr
  have hne : chunk.isEmpty = false := by
    cases chunk
    · cases ht
    · rfl
  unfold maxWordsInSentence
  rw [hne]
  simp only [Bool.false_eq_true, if_false, List.length_map]
  exact foldr_max_le _ _ (List.mem_map_of_mem (fun task => task.words.length) ht)

theorem wordRows_flatten (chunk : List SentenceTaskDTO) :
    (wordRows chunk).flatten = batchWordIds chunk := by
  unfold wordRows batchWordIds
  induction chunk with
  | nil => rfl
  | cons t ts ih => simp_all [List.flatMap_cons]

theorem interleaved_perm_batch (chunk : List SentenceTaskDTO) :
    (interleavedWordIds chunk).Perm (batchWordIds chunk) := by
  rw [interleavedWordIds_eq_ilv, ← wordRows_flatten]
  exact ilv_perm_flatten _ _ (wordRows_length_le chunk)

theorem chunkListGo_flatten (n : Nat) (hn : n ≠ 0) :
    ∀ (fuel : Nat) (l : List α), l.length ≤ fuel →
      (chunkListGo fuel n l).flatten = l := by
  intro fuel
  induction fuel with
  | zero =>
    intro l hl
    cases l with
    | nil => rfl
    | cons a rest => simp at hl
  | succ fuel ih =>
    intro l hl
    cases l with
    | nil => rfl
    | cons a rest =>
      rw [chunkListGo, if_neg hn, List.flatten_cons, ih]
      · exact List.take_append_drop n (a :: rest)
      · simp at hl ⊢
        omega

theorem chunkList_flatten (n : Nat) (hn : n ≠ 0) (l : List α) :
    (chunkList n l).flatten = l :=
  chunkListGo_flatten n hn l.length l le_rfl

theorem chunkListGo_mem_length (n : Nat) (hn : n ≠ 0) :
    ∀ (fuel : Nat) (l : List α), ∀ c ∈ chunkListGo fuel n l,
      1 ≤ c.length ∧ c.length ≤ n := by
  intro fuel
  induction fuel with
  | zero =>
    intro l c hc
    cases l with
    | nil => cases hc
    | cons a rest => cases hc
  | succ fuel ih =>
    intro l c hc
    cases l with
    | nil => cases hc
    | cons a rest =>
      rw [chunkListGo, if_neg hn] at hc
      rcases List.mem_cons.mp hc with rfl | hc
      · simp only [List.length_take, List.length_cons]
        omega
      · exact ih _ c hc

theorem chunkList_mem_length (n : Nat) (hn : n ≠ 0) (l : List α) :
    ∀ c ∈ chunkList n l, 1 ≤ c.length ∧ c.length ≤ n :=
  chunkListGo_mem_length n hn l.length l

theorem colAt_all_empty (rows : List (List Nat)) (h : rows.all List.isEmpty = true)
    (i : Nat) : colAt rows i = [] := by
  unfold colAt
  rw [List.all_eq_true] at h
  induction rows with
  | nil => rfl
  | cons r rs ih =>
    have hr : r = [] := by
      have := h r (List.mem_cons_self r rs)
      cases r
      · rfl
      · simp at this
    subst hr
    rw [List.filterMap_cons]
    simp only [List.getElem?_nil]
    exact ih (fun l hl => h l (List.mem_cons_of_mem _ hl))

theorem ilv_all_empty : ∀ (m : Nat) (rows : List (List Nat)),
    rows.all List.isEmpty = true → ilv m rows = [] := by
  intro m
  induction m with
  | zero => intro rows _; rfl
  | succ m ih =>
    intro rows h
    rw [ilv_succ, colAt_all_empty rows h 0, List.nil_append]
    apply ih
    rw [List.all_eq_true] at h ⊢
    intro r hr
    obtain ⟨r0, hr0, rfl⟩ := List.mem_map.mp hr
    have := h r0 hr0
    cases r0
    · rfl
    · simp at this

theorem ilv_eq_roundRobinSpec : ∀ (m : Nat) (rows : List (List Nat)),
    (∀ r ∈ rows, r.length ≤ m) → ilv m rows = roundRobinSpec rows := by
  intro m
  induction m with
  | zero =>
    intro rows h
    have hall : rows.all List.isEmpty = true := by
      rw [List.all_eq_true]
      intro r hr
      have := h r hr
      cases r
      · rfl
      · simp at this
    rw [roundRobinSpec, dif_pos hall]
    rfl
  | succ m ih =>
    intro rows h
    by_cases hall : rows.all List.isEmpty = true
    · rw [roundRobinSpec, dif_pos hall]
      exact ilv_all_empty _ _ hall
    · rw [ilv_succ, roundRobinSpec, dif_neg hall]
      congr 1
      · unfold colAt
        congr 1
        funext r
        rw [List.head?_eq_getElem?]
      · apply ih
        intro r hr
        obtain ⟨r0, hr0, rfl⟩ := List.mem_map.mp hr
        have := h r0 hr0
        cases r0 with
        | nil => simp
        | cons b u => simp at this ⊢; omega

theorem countP_mem_flatten_nodup (x : Nat) :
    ∀ gs : List (List Nat), gs.flatten.Nodup → x ∈ gs.flatten →
      gs.countP (fun c => decide (x ∈ c)) = 1 := by
  intro gs
  induction gs with
  | nil => intro _ hx; simp at hx
  | cons c cs ih =>
    intro hnd hx
    rw [List.flatten_cons] at hnd hx
    rw [List.nodup_append] at hnd
    obtain ⟨hc, hcs, hdisj⟩ := hnd
    rw [List.countP_cons]
    by_cases hxc : x ∈ c
    · have hx2 : x ∉ cs.flatten := fun hmem => hdisj hxc hmem
      have h0 : cs.countP (fun c => decide (x ∈ c)) = 0 :=
        List.countP_eq_zero.mpr
          (fun l hl hpl => hx2 (List.mem_flatten.mpr ⟨l, hl, by simpa using hpl⟩))
      simp [h0, hxc]
    · have hx2 : x ∈ cs.flatten := by
        rcases List.mem_append.mp hx with h | h
        · exact absurd h hxc
        · exact h
      simp [ih hcs hx2, hxc]

theorem build_ai_payload_groups_wids (chunk : List SentenceTaskDTO) :
    (build_ai_payload chunk).groups.map (fun g => g.wids)
      = chunkList 3 (interleavedWordIds chunk) := by
  unfold build_ai_payload
  rw [List.map_map]
  exact List.enum_map_snd _

/-- C3: the payload builder interleaves words round-robin — repeatedly one
word from each non-exhausted bucket in bucket order (the index loop agrees
with the spec's round-robin description) — and then chunks into groups of 3
with sequential ids; on S1 = A,B,C and S2 = D,E the order is A,D,B,E,C and
the groups are [A,D,B] and [E,C], the first spanning both sentences. -/
theorem interleaving_round_robin_and_scenario :
    (∀ chunk : List SentenceTaskDTO,
        interleavedWordIds chunk = roundRobinSpec (wordRows chunk))
    ∧ interleavedWordIds exampleScenario = [11, 21, 12, 22, 13]
    ∧ (build_ai_payload exampleScenario).groups =
        [{ gid := 1, wids := [11, 21, 12] }, { gid := 2, wids := [22, 13] }] := by
  refine ⟨?_, ?_, ?_⟩
  · intro chunk
    rw [interleavedWordIds_eq_ilv]
    exact ilv_eq_roundRobinSpec _ _ (wordRows_length_le chunk)
  · decide
  · decide

/-- C10: `_build_ai_payload` is total on every chunk and in particular
returns an empty `data` and empty `groups` payload on the empty chunk
(the `if chunk else 0` guard protects the `max`), so the payload stage
cannot crash a batch. -/
theorem build_ai_payload_empty :
    build_ai_payload ([] : List SentenceTaskDTO) = { data := [], groups := [] } := by
  rfl

/-- C1: for a non-empty batch with distinct candidate word ids, the payload's
groups partition the batch's word ids — union equals the batch id set, every
id lies in exactly one group, and every group has 1 to 3 members. -/
theorem build_ai_payload_partitions (chunk : List SentenceTaskDTO)
    (hne : chunk ≠ []) (hnd : (batchWordIds chunk).Nodup) :
    (∀ x, (∃ g ∈ (build_ai_payload chunk).groups, x ∈ g.wids) ↔ x ∈ batchWordIds chunk)
    ∧ (∀ x ∈ batchWordIds chunk,
        (build_ai_payload chunk).groups.countP (fun g => decide (x ∈ g.wids)) = 1)
    ∧ (∀ g ∈ (build_ai_payload chunk).groups, 1 ≤ g.wids.length ∧ g.wids.length ≤ 3) := by
  have hperm := interleaved_perm_batch chunk
  have hflat : (chunkList 3 (interleavedWordIds chunk)).flatten = interleavedWordIds chunk :=
    chunkList_flatten 3 (by omega) _
  have hmapw := build_ai_payload_groups_wids chunk
  have hndi : (interleavedWordIds chunk).Nodup := hperm.nodup_iff.mpr hnd
  refine ⟨?_, ?_, ?_⟩
  · intro x
    constructor
    · rintro ⟨g, hg, hxg⟩
      have hmem : g.wids ∈ (build_ai_payload chunk).groups.map (fun g => g.wids) :=
        List.mem_map_of_mem _ hg
      rw [hmapw] at hmem
      have hxf : x ∈ (chunkList 3 (interleavedWordIds chunk)).flatten :=
        List.mem_flatten.mpr ⟨g.wids, hmem, hxg⟩
      rw [hflat] at hxf
      exact hperm.mem_iff.mp hxf
    · intro hx
      have hxi : x ∈ interleavedWordIds chunk := hperm.mem_iff.mpr hx
      rw [← hflat] at hxi
      obtain ⟨c, hc, hxc⟩ := List.mem_flatten.mp hxi
      rw [← hmapw] at hc
      obtain ⟨g, hg, rfl⟩ := List.mem_map.mp hc
      exact ⟨g, hg, hxc⟩
  · intro x hx
    have hcnt : (build_ai_payload chunk).groups.countP (fun g => decide (x ∈ g.wids))
        = ((build_ai_payload chunk).groups.map (fun g => g.wids)).countP
            (fun c => decide (x ∈ c)) := by
      rw [List.countP_map]
      rfl
    rw [hcnt, hmapw]
    apply countP_mem_flatten_nodup
    · rw [hflat]
      exact hndi
    · rw [hflat]
      exact hperm.mem_iff.mpr hx
  · intro g hg
    have hmem : g.wids ∈ chunkList 3 (interleavedWordIds chunk) := by
      rw [← hmapw]
      exact List.mem_map_of_mem _ hg
    exact chunkList_mem_length 3 (by omega) _ _ hmem

/-- Witness for C1 at the concrete two-sentence scenario. -/
theorem build_ai_payload_partitions_witness :
    (∀ x, (∃ g ∈ (build_ai_payload exampleScenario).groups, x ∈ g.wids)
        ↔ x ∈ batchWordIds exampleScenario)
    ∧ (∀ x ∈ batchWordIds exampleScenario,
        (build_ai_payload exampleScenario).groups.countP (fun g => decide (x ∈ g.wids)) = 1)
    ∧ (∀ g ∈ (build_ai_payload exampleScenario).groups,
        1 ≤ g.wids.length ∧ g.wids.length ≤ 3) :=
  build_ai_payload_partitions exampleScenario (by decide) (by decide)

/-! ## The retry state machine -/

theorem runMachine_done (eo : List String) (go : Nat → List GenEntry) (fuel : Nat)
    (p : RunPoint) (h : p.node = Node.done) : runMachine eo go fuel p = p := by
  obtain ⟨n, s, g⟩ := p
  have hn : n = Node.done := h
  subst hn
  cases fuel <;> rfl

/-- C2: after Validate the compiled graph loops back to Generate iff an error
is set and the retry counter is strictly below 3; a run whose Generate output
always fails validation reaches END with the retry counter at 3, exactly 3
Generate invocations (never a 4th), and the last recorded error surfaced. -/
theorem retry_state_machine (extractOracle : List String) (genOracle : Nat → List GenEntry)
    (raw : String) (hfail : ∀ n, (validCheck (genOracle n)).isSome = true) :
    (∀ s : AgentState, decide_next_node s = "retry" ↔ (s.error ≠ none ∧ s.retry_count < 3))
    ∧ ∀ extra : Nat,
        runMachine extractOracle genOracle (7 + extra) (initPoint raw) =
          { node := Node.done
            state := { subtitle_raw := raw, selected_words := extractOracle
                       word_entries := genOracle 2, retry_count := 3
                       error := validCheck (genOracle 2) }
            genCalls := 3 } := by
  constructor
  · intro s
    have hif : decide_next_node s = "retry"
        ↔ (s.error.isSome && decide (s.retry_count < 3)) = true := by
      unfold decide_next_node
      by_cases hc : (s.error.isSome && decide (s.retry_count < 3)) = true
      · rw [if_pos hc]
        simp [hc]
      · rw [if_neg hc]
        constructor
        · intro habs
          exact absurd habs (by decide)
        · intro habs
          exact absurd habs hc
    rw [hif, Bool.and_eq_true, decide_eq_true_eq, Option.isSome_iff_ne_none]
  · intro extra
    obtain ⟨e0, he0⟩ := Option.isSome_iff_exists.mp (hfail 0)
    obtain ⟨e1, he1⟩ := Option.isSome_iff_exists.mp (hfail 1)
    obtain ⟨e2, he2⟩ := Option.isSome_iff_exists.mp (hfail 2)
    have hstepA : ∀ (fuel : Nat) (s : AgentState) (g : Nat),
        runMachine extractOracle genOracle (fuel + 1) ⟨Node.extract, s, g⟩
          = runMachine extractOracle genOracle fuel
              (stepOnce extractOracle genOracle ⟨Node.extract, s, g⟩) :=
      fun _ _ _ => rfl
    have hstepG : ∀ (fuel : Nat) (s : AgentState) (g : Nat),
        runMachine extractOracle genOracle (fuel + 1) ⟨Node.generate, s, g⟩
          = runMachine extractOracle genOracle fuel
              (stepOnce extractOracle genOracle ⟨Node.generate, s, g⟩) :=
      fun _ _ _ => rfl
    have hstepV : ∀ (fuel : Nat) (s : AgentState) (g : Nat),
        runMachine extractOracle genOracle (fuel + 1) ⟨Node.validate, s, g⟩
          = runMachine extractOracle genOracle fuel
              (stepOnce extractOracle genOracle ⟨Node.validate, s, g⟩) :=
      fun _ _ _ => rfl
    have hs0 : stepOnce extractOracle genOracle (initPoint raw)
        = ⟨Node.generate, ⟨raw, extractOracle, [], 0, none⟩, 0⟩ := rfl
    have hs1 : stepOnce extractOracle genOracle
          ⟨Node.generate, ⟨raw, extractOracle, [], 0, none⟩, 0⟩
        = ⟨Node.validate, ⟨raw, extractOracle, genOracle 0, 0, none⟩, 1⟩ := rfl
    have hs2 : stepOnce extractOracle genOracle
          ⟨Node.validate, ⟨raw, extractOracle, genOracle 0, 0, none⟩, 1⟩
        = ⟨Node.generate, ⟨raw, extractOracle, genOracle 0, 1, some e0⟩, 1⟩ := by
      simp only [stepOnce, validate_result, he0]
      rfl
    have hs3 : stepOnce extractOracle genOracle
          ⟨Node.generate, ⟨raw, extractOracle, genOracle 0, 1, some e0⟩, 1⟩
        = ⟨Node.validate, ⟨raw, extractOracle, genOracle 1, 1, some e0⟩, 2⟩ := rfl
    have hs4 : stepOnce extractOracle genOracle
          ⟨Node.validate, ⟨raw, extractOracle, genOracle 1, 1, some e0⟩, 2⟩
        = ⟨Node.generate, ⟨raw, extractOracle, genOracle 1, 2, some e1⟩, 2⟩ := by
      simp only [stepOnce, validate_result, he1]
      rfl
    have hs5 : stepOnce extractOracle genOracle
          ⟨Node.generate, ⟨raw, extractOracle, genOracle 1, 2, some e1⟩, 2⟩
        = ⟨Node.validate, ⟨raw, extractOracle, genOracle 2, 2, some e1⟩, 3⟩ := rfl
    have hs6 : stepOnce extractOracle genOracle
          ⟨Node.validate, ⟨raw, extractOracle, genOracle 2, 2, some e1⟩, 3⟩
        = ⟨Node.done, ⟨raw, extractOracle, genOracle 2, 3, some e2⟩, 3⟩ := by
      simp only [stepOnce, validate_result, he2]
      rfl
    have h7 : 7 + extra = ((((((extra + 1) + 1) + 1) + 1) + 1) + 1) + 1 := by omega
    have hinit : initPoint raw = ⟨Node.extract, ⟨raw, [], [], 0, none⟩, 0⟩ := rfl
    rw [h7, hinit]
    rw [hstepA]
    rw [show stepOnce extractOracle genOracle ⟨Node.extract, ⟨raw, [], [], 0, none⟩, 0⟩
        = ⟨Node.generate, ⟨raw, extractOracle, [], 0, none⟩, 0⟩ from rfl]
    rw [hstepG, hs1, hstepV, hs2, hstepG, hs3, hstepV, hs4, hstepG, hs5, hstepV, hs6]
    rw [runMachine_done _ _ _ _ rfl, he2]

/-- Witness for C2: a generator that always returns the empty entry list. -/
theorem retry_state_machine_witness :
    (∀ s : AgentState, decide_next_node s = "retry" ↔ (s.error ≠ none ∧ s.retry_count < 3))
    ∧ ∀ extra : Nat,
        runMachine ["言葉"] (fun _ => []) (7 + extra) (initPoint "raw") =
          { node := Node.done
            state := { subtitle_raw := "raw", selected_words := ["言葉"]
                       word_entries := [], retry_count := 3
                       error := validCheck [] }
            genCalls := 3 } :=
  have hv : (validCheck ([] : List GenEntry)).isSome = true := by decide
  retry_state_machine ["言葉"] (fun _ => []) "raw" (fun _ => hv)

/-! ## The semaphore bound -/

/-- C8: in any reachable state of the capacity-3 semaphore protecting the
generation call, at most 3 batch tasks are inside the `async with` block, so
an observer never sees more than 3 concurrent generation calls. -/
theorem semaphore_concurrency_bound (s : SemState) (h : SemReachable s) :
    s.inflight ≤ 3 := by
  have inv : ∀ t : SemState, SemReachable t → t.permits + t.inflight = 3 := by
    intro t ht
    induction ht with
    | init => rfl
    | step hr hstep ih =>
      cases hstep with
      | acquire hu =>
        simp only []
        omega
      | release hu =>
        simp only []
        omega
  have := inv s h
  omega

/-- Witness for C8: one task has acquired a slot. -/
theorem semaphore_concurrency_bound_witness :
    ({ permits := 2, inflight := 1 } : SemState).inflight ≤ 3 :=
  semaphore_concurrency_bound { permits := 2, inflight := 1 }
    (SemReachable.step SemReachable.init (SemStep.acquire initSemState (by decide)))

/-! ## The no-op contract -/

/-- C9: when the fetch stage yields no pending candidate words, the
orchestrator returns 0 immediately, issues no generation calls, writes
nothing to the store, and does not commit. -/
theorem enhance_noop_on_empty_fetch (oracle : Nat → GenOutcome) (db : DBState)
    (subtitle_id batch_size : Nat)
    (h : fetch_analysis_targets db subtitle_id = []) :
    enhance_words_hybrid oracle db subtitle_id batch_size =
      { db := db, counts := [], total := 0, gen_calls := 0, committed := false } := by
  unfold enhance_words_hybrid
  rw [h]
  rfl

/-- Witness for C9 on the empty store. -/
theorem enhance_noop_on_empty_fetch_witness :
    enhance_words_hybrid (fun _ => Except.error "network down") emptyDB 1 3 =
      { db := emptyDB, counts := [], total := 0, gen_calls := 0, committed := false } :=
  enhance_noop_on_empty_fetch (fun _ => Except.error "network down") emptyDB 1 3 rfl

/-! ## The fetch stage -/

/-- C5 (code bug): the fetch stage's `where` clause filters only on
`subtitle_id` and `is_valid` — the pending-enhancement filter the inline
comment announces (and which the spec and the V1 query
`JapaneseWordMetadata.jlpt_level == "WAIT"` state) is absent — so a word
whose metadata marker is already `"N5"` is still returned. -/
theorem fetch_returns_already_enhanced_word :
    fetch_analysis_targets enhancedWordDB 1 =
      [{ sentence_id := 4, sentence_text := "ご飯を食べる"
         words := [{ word_id := 7, base_form := "食べる" }] }]
    ∧ enhancedWordDB.word_entries.map (fun w => w.japanese_metadata.jlpt_level)
        = [some "N5"] :=
  ⟨rfl, rfl⟩

/-! ## Lemmas about the store and the save/orchestration pipeline -/

theorem wordEntries_find?_isSome (db : DBState) (w : Nat) :
    (db.word_entries.find? (fun e => e.id = w)).isSome = true ↔ w ∈ presentWordIds db := by
  rw [List.find?_isSome]
  unfold presentWordIds
  constructor
  · rintro ⟨e, he, hpe⟩
    have hew : e.id = w := by simpa using hpe
    exact hew ▸ List.mem_map_of_mem _ he
  · intro hw
    obtain ⟨e, he, hew⟩ := List.mem_map.mp hw
    exact ⟨e, he, by simpa using hew⟩

theorem presentWordIds_patch (wid : Nat) (r lv : String) (db : DBState) :
    presentWordIds (patchWordMetadata wid r lv db) = presentWordIds db := by
  unfold presentWordIds patchWordMetadata
  rw [List.map_map]
  apply List.map_congr_left
  intro e _
  simp only [Function.comp_apply]
  by_cases h : e.id = wid <;> simp [h]

theorem phase1Step_skip (chunk : List SentenceTaskDTO)
    (existing : List SubtitleTranslationRow) (db : DBState)
    (tr : SentenceTranslationV4) (h : resolveSentenceId chunk tr.s_id = none) :
    phase1Step chunk existing db tr = db := by
  unfold phase1Step
  rw [h]

theorem phase1Step_update (chunk : List SentenceTaskDTO)
    (existing : List SubtitleTranslationRow) (db : DBState)
    (tr : SentenceTranslationV4) (d pk : Nat)
    (hd : resolveSentenceId chunk tr.s_id = some d)
    (hpk : transMapLookup existing d = some pk) :
    phase1Step chunk existing db tr = patchTranslationText pk tr.tr_ko db := by
  unfold phase1Step
  simp only [hd, hpk]

theorem phase1Step_insert (chunk : List SentenceTaskDTO)
    (existing : List SubtitleTranslationRow) (db : DBState)
    (tr : SentenceTranslationV4) (d : Nat)
    (hd : resolveSentenceId chunk tr.s_id = some d)
    (hpk : transMapLookup existing d = none) :
    phase1Step chunk existing db tr =
      { db with
        subtitle_translations := db.subtitle_translations ++
          [{ id := db.next_translation_id, subtitle_sentence_id := d
             language_code := "ko", translated_text := tr.tr_ko }]
        next_translation_id := db.next_translation_id + 1 } := by
  unfold phase1Step
  simp only [hd, hpk]

theorem phase1Step_frame (chunk : List SentenceTaskDTO)
    (existing : List SubtitleTranslationRow) (db : DBState)
    (tr : SentenceTranslationV4) :
    (phase1Step chunk existing db tr).word_entries = db.word_entries
    ∧ (phase1Step chunk existing db tr).sentences = db.sentences
    ∧ (phase1Step chunk existing db tr).example_sentences = db.example_sentences
    ∧ (phase1Step chunk existing db tr).example_translations = db.example_translations
    ∧ (phase1Step chunk existing db tr).word_learning_contents = db.word_learning_contents
    ∧ (phase1Step chunk existing db tr).next_example_id = db.next_example_id := by
  cases hd : resolveSentenceId chunk tr.s_id with
  | none =>
    rw [phase1Step_skip chunk existing db tr hd]
    exact ⟨rfl, rfl, rfl, rfl, rfl, rfl⟩
  | some d =>
    cases hpk : transMapLookup existing d with
    | some pk =>
      rw [phase1Step_update chunk existing db tr d pk hd hpk]
      exact ⟨rfl, rfl, rfl, rfl, rfl, rfl⟩
    | none =>
      rw [phase1Step_insert chunk existing db tr d hd hpk]
      exact ⟨rfl, rfl, rfl, rfl, rfl, rfl⟩

theorem savePhase1_fold_frame (chunk : List SentenceTaskDTO)
    (existing : List SubtitleTranslationRow) :
    ∀ (trans : List SentenceTranslationV4) (db : DBState),
      (trans.foldl (phase1Step chunk existing) db).word_entries = db.word_entries
      ∧ (trans.foldl (phase1Step chunk existing) db).sentences = db.sentences
      ∧ (trans.foldl (phase1Step chunk existing) db).example_sentences = db.example_sentences
      ∧ (trans.foldl (phase1Step chunk existing) db).example_translations
          = db.example_translations
      ∧ (trans.foldl (phase1Step chunk existing) db).word_learning_contents
          = db.word_learning_contents
      ∧ (trans.foldl (phase1Step chunk existing) db).next_example_id = db.next_example_id := by
  intro trans
  induction trans with
  | nil => intro db; exact ⟨rfl, rfl, rfl, rfl, rfl, rfl⟩
  | cons tr rest ih =>
    intro db
    rw [List.foldl_cons]
    obtain ⟨h1, h2, h3, h4, h5, h6⟩ := ih (phase1Step chunk existing db tr)
    obtain ⟨g1, g2, g3, g4, g5, g6⟩ := phase1Step_frame chunk existing db tr
    exact ⟨h1.trans g1, h2.trans g2, h3.trans g3, h4.trans g4, h5.trans g5, h6.trans g6⟩

theorem savePhase1_frame (db : DBState) (chunk : List SentenceTaskDTO)
    (trans : List SentenceTranslationV4) :
    (savePhase1 db chunk trans).word_entries = db.word_entries
    ∧ (savePhase1 db chunk trans).example_sentences = db.example_sentences
    ∧ (savePhase1 db chunk trans).word_learning_contents = db.word_learning_contents
    ∧ (savePhase1 db chunk trans).next_example_id = db.next_example_id := by
  obtain ⟨h1, _, h3, _, h5, h6⟩ :=
    savePhase1_fold_frame chunk (existingKoTranslations db chunk) trans db
  exact ⟨h1, h3, h5, h6⟩

theorem savePhase2_go :
    ∀ (exs : List ExampleV4) (db : DBState) (acc : List (Nat × Nat)),
      (exs.foldl phase2Step (db, acc)).1.example_sentences
          = db.example_sentences ++ exampleRowsFrom db.next_example_id exs
      ∧ (exs.foldl phase2Step (db, acc)).2 = acc ++ exampleMapFrom db.next_example_id exs
      ∧ (exs.foldl phase2Step (db, acc)).1.next_example_id
          = db.next_example_id + exs.length
      ∧ (exs.foldl phase2Step (db, acc)).1.word_entries = db.word_entries
      ∧ (exs.foldl phase2Step (db, acc)).1.subtitle_translations = db.subtitle_translations
      ∧ (exs.foldl phase2Step (db, acc)).1.word_learning_contents
          = db.word_learning_contents
      ∧ (exs.foldl phase2Step (db, acc)).1.next_translation_id = db.next_translation_id := by
  intro exs
  induction exs with
  | nil =>
    intro db acc
    exact ⟨by simp [exampleRowsFrom], by simp [exampleMapFrom], by simp, rfl, rfl, rfl, rfl⟩
  | cons ex rest ih =>
    intro db acc
    rw [List.foldl_cons]
    obtain ⟨h1, h2, h3, h4, h5, h6, h7⟩ :=
      ih (phase2Step (db, acc) ex).1 (phase2Step (db, acc) ex).2
    refine ⟨?_, ?_, ?_, h4, h5, h6, h7⟩
    · rw [h1]
      simp [phase2Step, exampleRowsFrom, List.append_assoc]
    · rw [h2]
      simp [phase2Step, exampleMapFrom, List.append_assoc]
    · rw [h3]
      simp [phase2Step, List.length_cons]
      omega

theorem exampleMapFrom_keys :
    ∀ (exs : List ExampleV4) (n : Nat),
      (exampleMapFrom n exs).map Prod.fst = exs.map (fun ex => ex.gid) := by
  intro exs
  induction exs with
  | nil => intro n; rfl
  | cons ex rest ih => intro n; simp [exampleMapFrom, ih]

theorem exampleMapLookup_isSome_of_mem (emap : List (Nat × Nat)) (g : Nat)
    (hg : g ∈ emap.map Prod.fst) : (exampleMapLookup emap g).isSome = true := by
  obtain ⟨p, hp, hpg⟩ := List.mem_map.mp hg
  unfold exampleMapLookup
  have hfind : (emap.reverse.find? (fun q => q.1 == g)).isSome = true :=
    List.find?_isSome.mpr ⟨p, List.mem_reverse.mpr hp, by simp [hpg]⟩
  cases hf : emap.reverse.find? (fun q => q.1 == g) with
  | none =>
    rw [hf] at hfind
    simp at hfind
  | some q => rfl

theorem savePhase3_go (word_ids : List Nat) (exs : List ExampleV4)
    (emap : List (Nat × Nat))
    (hkeys : ∀ ex ∈ exs, (exampleMapLookup emap ex.gid).isSome = true) :
    ∀ (ws : List WordDefinitionV4) (db : DBState) (n : Nat),
      (ws.foldl (phase3Step word_ids exs emap) (db, n)).2
        = n + ws.countP (fun dr => word_ids.contains dr.w_id
            && (presentWordIds db).contains dr.w_id
            && exs.any (fun ex => ex.wids.contains dr.w_id))
      ∧ presentWordIds (ws.foldl (phase3Step word_ids exs emap) (db, n)).1
          = presentWordIds db
      ∧ (ws.foldl (phase3Step word_ids exs emap) (db, n)).1.subtitle_translations
          = db.subtitle_translations
      ∧ (ws.foldl (phase3Step word_ids exs emap) (db, n)).1.example_sentences
          = db.example_sentences
      ∧ (ws.foldl (phase3Step word_ids exs emap) (db, n)).1.next_translation_id
          = db.next_translation_id := by
  intro ws
  induction ws with
  | nil => intro db n; exact ⟨by simp, rfl, rfl, rfl, rfl⟩
  | cons dr rest ih =>
    intro db n
    rw [List.foldl_cons, List.countP_cons]
    cases hw : wordMapGet db word_ids dr.w_id with
    | none =>
      have hstep : phase3Step word_ids exs emap (db, n) dr = (db, n) := by
        unfold phase3Step
        rw [hw]
      rw [hstep]
      obtain ⟨ic, ip, it, ie, itr⟩ := ih db n
      have hp : (word_ids.contains dr.w_id && (presentWordIds db).contains dr.w_id
          && exs.any (fun ex => ex.wids.contains dr.w_id)) = false := by
        unfold wordMapGet at hw
        by_cases hc : word_ids.contains dr.w_id
        · rw [if_pos hc] at hw
          have hnp : dr.w_id ∉ presentWordIds db := by
            intro hmem
            have hs := (wordEntries_find?_isSome db dr.w_id).mpr hmem
            rw [hw] at hs
            simp at hs
          simp
          exact fun _ hmem => absurd hmem hnp
        · simp
          exact fun hmem => absurd (List.elem_iff.mpr hmem) hc
      refine ⟨?_, ip, it, ie, itr⟩
      rw [ic, hp]
      simp
    | some we =>
      cases hf : exs.find? (fun ex => ex.wids.contains dr.w_id) with
      | none =>
        have hstep : phase3Step word_ids exs emap (db, n) dr
            = (patchWordMetadata we.id dr.r dr.lv db, n) := by
          unfold phase3Step
          simp only [hw, hf]
        rw [hstep]
        obtain ⟨ic, ip, it, ie, itr⟩ := ih (patchWordMetadata we.id dr.r dr.lv db) n
        have hpres := presentWordIds_patch we.id dr.r dr.lv db
        rw [hpres] at ic ip
        have hany : exs.any (fun ex => ex.wids.contains dr.w_id) = false :=
          List.any_eq_false.mpr (List.find?_eq_none.mp hf)
        refine ⟨?_, ip, it, ie, itr⟩
        rw [ic, hany]
        simp
      | some ex0 =>
        cases hl : exampleMapLookup emap ex0.gid with
        | none =>
          have hmem := List.mem_of_find?_eq_some hf
          have habs := hkeys ex0 hmem
          rw [hl] at habs
          simp at habs
        | some eid =>
          have hstep : phase3Step word_ids exs emap (db, n) dr
              = ({ patchWordMetadata we.id dr.r dr.lv db with
                    word_learning_contents :=
                      (patchWordMetadata we.id dr.r dr.lv db).word_learning_contents ++
                        [{ word_entry_id := we.id, example_id := some eid, meaning := dr.m
                           usage_tip := "JLPT " ++ dr.lv ++ " 수준의 단어입니다."
                           language_code := "ko" }] }, n + 1) := by
            unfold phase3Step
            simp only [hw, hf, hl]
          rw [hstep]
          obtain ⟨ic, ip, it, ie, itr⟩ :=
            ih ({ patchWordMetadata we.id dr.r dr.lv db with
                    word_learning_contents :=
                      (patchWordMetadata we.id dr.r dr.lv db).word_learning_contents ++
                        [{ word_entry_id := we.id, example_id := some eid, meaning := dr.m
                           usage_tip := "JLPT " ++ dr.lv ++ " 수준의 단어입니다."
                           language_code := "ko" }] }) (n + 1)
          have hpres : presentWordIds
              ({ patchWordMetadata we.id dr.r dr.lv db with
                    word_learning_contents :=
                      (patchWordMetadata we.id dr.r dr.lv db).word_learning_contents ++
                        [{ word_entry_id := we.id, example_id := some eid, meaning := dr.m
                           usage_tip := "JLPT " ++ dr.lv ++ " 수준의 단어입니다."
                           language_code := "ko" }] }) = presentWordIds db :=
            presentWordIds_patch we.id dr.r dr.lv db
          rw [hpres] at ic ip
          have hcont : word_ids.contains dr.w_id = true := by
            unfold wordMapGet at hw
            by_cases hc : word_ids.contains dr.w_id
            · exact hc
            · rw [if_neg hc] at hw
              cases hw
          have hwe : (presentWordIds db).contains dr.w_id = true := by
            unfold wordMapGet at hw
            rw [if_pos hcont] at hw
            have hmm := (wordEntries_find?_isSome db dr.w_id).mp (by rw [hw]; rfl)
            exact List.elem_iff.mpr hmm
          have hp0 : ex0.wids.contains dr.w_id = true := by
            have h0 := @List.find?_some ExampleV4 (fun ex => ex.wids.contains dr.w_id) ex0 exs hf
            simpa using h0
          have hany : exs.any (fun ex => ex.wids.contains dr.w_id) = true :=
            List.any_eq_true.mpr ⟨ex0, List.mem_of_find?_eq_some hf, hp0⟩
          refine ⟨?_, ip, it, ie, itr⟩
          rw [ic, hcont, hwe, hany]
          simp
          omega

theorem save_v3_results_count (db : DBState) (chunk : List SentenceTaskDTO)
    (ai : AIWordEnhanceResponseV4) :
    (save_v3_results db chunk ai).2
      = batchSuccessCountSpec (presentWordIds db) chunk ai := by
  obtain ⟨p2ex, p2map, p2next, p2we, p2tr, p2wlc, p2ntr⟩ :=
    savePhase2_go ai.exs (savePhase1 db chunk ai.trans) []
  have hkeys : ∀ ex ∈ ai.exs,
      (exampleMapLookup (savePhase2 (savePhase1 db chunk ai.trans) ai.exs).2 ex.gid).isSome
        = true := by
    intro ex hex
    apply exampleMapLookup_isSome_of_mem
    show ex.gid ∈ ((ai.exs.foldl phase2Step (savePhase1 db chunk ai.trans, [])).2).map Prod.fst
    rw [p2map]
    simp only [List.nil_append, exampleMapFrom_keys]
    exact List.mem_map_of_mem _ hex
  obtain ⟨p3c, p3p, _, _, _⟩ :=
    savePhase3_go (batchWordIds chunk) ai.exs
      (savePhase2 (savePhase1 db chunk ai.trans) ai.exs).2 hkeys ai.words
      (savePhase2 (savePhase1 db chunk ai.trans) ai.exs).1 0
  have hpres2 : presentWordIds (savePhase2 (savePhase1 db chunk ai.trans) ai.exs).1
      = presentWordIds db := by
    unfold presentWordIds
    rw [show (savePhase2 (savePhase1 db chunk ai.trans) ai.exs).1.word_entries
        = db.word_entries from p2we.trans (savePhase1_frame db chunk ai.trans).1]
  unfold save_v3_results savePhase3
  rw [p3c, hpres2]
  unfold batchSuccessCountSpec
  simp

theorem save_v3_results_present (db : DBState) (chunk : List SentenceTaskDTO)
    (ai : AIWordEnhanceResponseV4) :
    presentWordIds (save_v3_results db chunk ai).1 = presentWordIds db := by
  obtain ⟨p2ex, p2map, p2next, p2we, p2tr, p2wlc, p2ntr⟩ :=
    savePhase2_go ai.exs (savePhase1 db chunk ai.trans) []
  have hkeys : ∀ ex ∈ ai.exs,
      (exampleMapLookup (savePhase2 (savePhase1 db chunk ai.trans) ai.exs).2 ex.gid).isSome
        = true := by
    intro ex hex
    apply exampleMapLookup_isSome_of_mem
    show ex.gid ∈ ((ai.exs.foldl phase2Step (savePhase1 db chunk ai.trans, [])).2).map Prod.fst
    rw [p2map]
    simp only [List.nil_append, exampleMapFrom_keys]
    exact List.mem_map_of_mem _ hex
  obtain ⟨_, p3p, _, _, _⟩ :=
    savePhase3_go (batchWordIds chunk) ai.exs
      (savePhase2 (savePhase1 db chunk ai.trans) ai.exs).2 hkeys ai.words
      (savePhase2 (savePhase1 db chunk ai.trans) ai.exs).1 0
  unfold save_v3_results savePhase3
  rw [p3p]
  unfold presentWordIds
  rw [show (savePhase2 (savePhase1 db chunk ai.trans) ai.exs).1.word_entries
      = db.word_entries from p2we.trans (savePhase1_frame db chunk ai.trans).1]

theorem countsSpec_length (oracle : Nat → GenOutcome) (present : List Nat) :
    ∀ (chunks : List (List SentenceTaskDTO)) (k : Nat),
      (countsSpec oracle present k chunks).length = chunks.length := by
  intro chunks
  induction chunks with
  | nil => intro k; rfl
  | cons c rest ih => intro k; simp [countsSpec, ih]

theorem countsSpec_getElem? (oracle : Nat → GenOutcome) (present : List Nat) :
    ∀ (chunks : List (List SentenceTaskDTO)) (k i : Nat),
      (countsSpec oracle present k chunks)[i]?
        = (chunks[i]?).map (fun c =>
            match oracle (k + i) with
            | Except.error _ => 0
            | Except.ok ai => batchSuccessCountSpec present c ai) := by
  intro chunks
  induction chunks with
  | nil => intro k i; simp [countsSpec]
  | cons c rest ih =>
    intro k i
    cases i with
    | zero => simp [countsSpec]
    | succ i =>
      simp only [countsSpec, List.getElem?_cons_succ]
      rw [ih (k + 1) i, show k + 1 + i = k + (i + 1) from by omega]

theorem enhance_go (oracle : Nat → GenOutcome) :
    ∀ (chunks : List (List SentenceTaskDTO)) (db : DBState) (acc : List Nat) (k : Nat),
      (chunks.foldl (enhanceStep oracle) (db, acc, k)).2.1
          = acc ++ countsSpec oracle (presentWordIds db) k chunks
      ∧ (chunks.foldl (enhanceStep oracle) (db, acc, k)).2.2 = k + chunks.length
      ∧ presentWordIds (chunks.foldl (enhanceStep oracle) (db, acc, k)).1
          = presentWordIds db := by
  intro chunks
  induction chunks with
  | nil => intro db acc k; exact ⟨by simp [countsSpec], by simp, rfl⟩
  | cons c rest ih =>
    intro db acc k
    rw [List.foldl_cons]
    cases ho : oracle k with
    | error e =>
      have hstep : enhanceStep oracle (db, acc, k) c = (db, acc ++ [0], k + 1) := by
        unfold enhanceStep process_batch_v3
        rw [show (db, acc, k).2.2 = k from rfl, ho]
      rw [hstep]
      obtain ⟨h1, h2, h3⟩ := ih db (acc ++ [0]) (k + 1)
      refine ⟨?_, ?_, h3⟩
      · rw [h1]
        simp [countsSpec, ho, List.append_assoc]
      · rw [h2]
        simp
        omega
    | ok ai =>
      have hstep : enhanceStep oracle (db, acc, k) c
          = ((save_v3_results db c ai).1, acc ++ [(save_v3_results db c ai).2], k + 1) := by
        unfold enhanceStep process_batch_v3
        rw [show (db, acc, k).2.2 = k from rfl, ho]
      rw [hstep]
      obtain ⟨h1, h2, h3⟩ :=
        ih (save_v3_results db c ai).1 (acc ++ [(save_v3_results db c ai).2]) (k + 1)
      have hpres := save_v3_results_present db c ai
      refine ⟨?_, ?_, h3.trans hpres⟩
      · rw [h1, hpres]
        simp [countsSpec, ho, save_v3_results_count db c ai, List.append_assoc]
      · rw [h2]
        simp
        omega

/-- C6: a generation/parse/save exception inside one batch is caught at the
task boundary: the orchestrator never raises, its return value is the sum of
the per-batch counts, a failed batch contributes exactly 0, and a successful
batch's count is a function of its own chunk, its own response and the
initial store only — unaffected by other batches' failures. -/
theorem enhance_fault_isolation (oracle : Nat → GenOutcome) (db : DBState)
    (subtitle_id batch_size : Nat) :
    (enhance_words_hybrid oracle db subtitle_id batch_size).total
        = (enhance_words_hybrid oracle db subtitle_id batch_size).counts.sum
    ∧ (enhance_words_hybrid oracle db subtitle_id batch_size).counts.length
        = (chunkList batch_size (fetch_analysis_targets db subtitle_id)).length
    ∧ (∀ i err, oracle i = Except.error err →
        i < (chunkList batch_size (fetch_analysis_targets db subtitle_id)).length →
        (enhance_words_hybrid oracle db subtitle_id batch_size).counts[i]? = some 0)
    ∧ (∀ i ai c, oracle i = Except.ok ai →
        (chunkList batch_size (fetch_analysis_targets db subtitle_id))[i]? = some c →
        (enhance_words_hybrid oracle db subtitle_id batch_size).counts[i]?
          = some (batchSuccessCountSpec (presentWordIds db) c ai)) := by
  by_cases hemp : (fetch_analysis_targets db subtitle_id).isEmpty
  · have ht : fetch_analysis_targets db subtitle_id = [] := List.isEmpty_iff.mp hemp
    unfold enhance_words_hybrid
    rw [ht]
    refine ⟨rfl, by simp [chunkList, chunkListGo], ?_, ?_⟩
    · intro i err _ hi
      simp [chunkList, chunkListGo] at hi
    · intro i ai c _ hc
      simp [chunkList, chunkListGo] at hc
  · have hne : (fetch_analysis_targets db subtitle_id).isEmpty = false :=
      Bool.not_eq_true _ ▸ hemp
    obtain ⟨h1, h2, h3⟩ := enhance_go oracle
      (chunkList batch_size (fetch_analysis_targets db subtitle_id)) db [] 0
    have hcounts : (enhance_words_hybrid oracle db subtitle_id batch_size).counts
        = countsSpec oracle (presentWordIds db) 0
            (chunkList batch_size (fetch_analysis_targets db subtitle_id)) := by
      simp only [enhance_words_hybrid, hne, Bool.false_eq_true, if_false]
      simpa using h1
    refine ⟨?_, ?_, ?_, ?_⟩
    · simp only [enhance_words_hybrid, hne, Bool.false_eq_true, if_false]
    · rw [hcounts, countsSpec_length]
    · intro i err herr hi
      rw [hcounts, countsSpec_getElem? oracle (presentWordIds db) _ 0 i,
        List.getElem?_eq_getElem hi]
      simp only [Nat.zero_add, herr]
      rfl
    · intro i ai c hok hc
      rw [hcounts, countsSpec_getElem? oracle (presentWordIds db) _ 0 i, hc]
      simp only [Nat.zero_add, hok]
      rfl

/-- A store with one pending word in one sentence, for the C6 witness. -/
def oneWordDB : DBState :=
  { word_entries := [
      { id := 3, subtitle_id := 1, first_occurrence_id := some 2
        base_form := "歩く", is_valid := true
        japanese_metadata := { reading := none, jlpt_level := some "WAIT" } }]
    sentences := [{ id := 2, sentence_text := "駅まで歩く" }]
    subtitle_translations := [], example_sentences := [], example_translations := []
    word_learning_contents := [], next_translation_id := 1, next_example_id := 1 }

/-- Witness for C6: with a single batch whose generation call fails, the
failed batch contributes a recorded count of exactly 0. -/
theorem enhance_fault_isolation_witness :
    (enhance_words_hybrid (fun _ => Except.error "boom") oneWordDB 1 3).counts[0]?
      = some 0 :=
  (enhance_fault_isolation (fun _ => Except.error "boom") oneWordDB 1 3).2.2.1
    0 "boom" rfl (by decide)

/-! ## Phase-1 upsert lemmas -/

theorem patchRow_id (pk : Nat) (txt : String) (t : SubtitleTranslationRow) :
    (if t.id = pk then { t with translated_text := txt } else t).id = t.id := by
  by_cases h : t.id = pk <;> simp [h]

theorem patchRow_key (pk : Nat) (txt : String) (t : SubtitleTranslationRow) :
    (if t.id = pk then { t with translated_text := txt } else t).subtitle_sentence_id
        = t.subtitle_sentence_id
    ∧ (if t.id = pk then { t with translated_text := txt } else t).language_code
        = t.language_code := by
  by_cases h : t.id = pk <;> simp [h]

theorem patch_map_ids (pk : Nat) (txt : String) (rows : List SubtitleTranslationRow) :
    ((rows.map (fun t => if t.id = pk then { t with translated_text := txt } else t)).map
        (fun t => t.id)) = rows.map (fun t => t.id) := by
  rw [List.map_map]
  apply List.map_congr_left
  intro t _
  simp only [Function.comp_apply]
  exact patchRow_id pk txt t

theorem koRows_patch (pk : Nat) (txt : String) (rows : List SubtitleTranslationRow)
    (sid : Nat) :
    koRows (rows.map (fun t => if t.id = pk then { t with translated_text := txt } else t)) sid
      = (koRows rows sid).map
          (fun t => if t.id = pk then { t with translated_text := txt } else t) := by
  unfold koRows
  rw [List.filter_map]
  congr 1
  apply List.filter_congr
  intro t _
  simp only [Function.comp_apply]
  obtain ⟨h1, h2⟩ := patchRow_key pk txt t
  rw [h1, h2]

theorem koRows_append (l1 l2 : List SubtitleTranslationRow) (sid : Nat) :
    koRows (l1 ++ l2) sid = koRows l1 sid ++ koRows l2 sid :=
  List.filter_append _ _

theorem Phase1Inv_init (db0 : DBState) (hWF : TransWF db0) : Phase1Inv db0 db0 :=
  ⟨hWF.1, hWF.2, le_rfl, fun t' ht' _ => ⟨t', ht', rfl, rfl, rfl⟩⟩

theorem Phase1Inv_step (chunk : List SentenceTaskDTO)
    (existing : List SubtitleTranslationRow) (db0 db' : DBState)
    (tr : SentenceTranslationV4) (h : Phase1Inv db0 db') :
    Phase1Inv db0 (phase1Step chunk existing db' tr) := by
  obtain ⟨hnd, hbound, hle, hkey⟩ := h
  cases hd : resolveSentenceId chunk tr.s_id with
  | none =>
    rw [phase1Step_skip chunk existing db' tr hd]
    exact ⟨hnd, hbound, hle, hkey⟩
  | some d =>
    cases hpk : transMapLookup existing d with
    | some pk =>
      rw [phase1Step_update chunk existing db' tr d pk hd hpk]
      unfold patchTranslationText
      refine ⟨?_, ?_, hle, ?_⟩
      · rw [patch_map_ids]
        exact hnd
      · intro t ht
        obtain ⟨u, hu, rfl⟩ := List.mem_map.mp ht
        have hb := hbound u hu
        rw [patchRow_id]
        exact hb
      · intro t' ht' hlt
        obtain ⟨u, hu, rfl⟩ := List.mem_map.mp ht'
        rw [patchRow_id] at hlt
        obtain ⟨t0, ht0, hid, hsid, hlang⟩ := hkey u hu hlt
        obtain ⟨k1, k2⟩ := patchRow_key pk tr.tr_ko u
        exact ⟨t0, ht0, by rw [patchRow_id]; exact hid, by rw [k1]; exact hsid,
          by rw [k2]; exact hlang⟩
    | none =>
      rw [phase1Step_insert chunk existing db' tr d hd hpk]
      refine ⟨?_, ?_, by simp; omega, ?_⟩
      · simp only [List.map_append, List.map_cons, List.map_nil]
        rw [List.nodup_append]
        refine ⟨hnd, List.nodup_singleton _, ?_⟩
        intro a ha hb
        have ha2 : a < db'.next_translation_id := by
          obtain ⟨u, hu, rfl⟩ := List.mem_map.mp ha
          exact hbound u hu
        have hb2 : a = db'.next_translation_id := by simpa using hb
        omega
      · intro t ht
        rcases List.mem_append.mp ht with ht | ht
        · have := hbound t ht
          simp only []
          omega
        · have : t = SubtitleTranslationRow.mk db'.next_translation_id d "ko" tr.tr_ko := by
            simpa using ht
          rw [this]
          simp
      · intro t' ht' hlt
        rcases List.mem_append.mp ht' with ht' | ht'
        · exact hkey t' ht' hlt
        · have heq : t' = SubtitleTranslationRow.mk db'.next_translation_id d "ko" tr.tr_ko := by
            simpa using ht'
          rw [heq] at hlt
          simp only [] at hlt
          omega

theorem resolveSentenceId_eq_some (chunk : List SentenceTaskDTO) (x d : Nat)
    (h : resolveSentenceId chunk x = some d) :
    d = x ∧ x ∈ chunk.map (fun t => t.sentence_id) ∧ x ≠ 0 := by
  unfold resolveSentenceId at h
  by_cases hc : ((chunk.map (fun t => t.sentence_id)).contains x && (x != 0)) = true
  · rw [if_pos hc] at h
    rw [Bool.and_eq_true] at hc
    obtain ⟨hc1, hc2⟩ := hc
    have hin : x ∈ chunk.map (fun t => t.sentence_id) := List.elem_iff.mp hc1
    have hx0 : x ≠ 0 := by simpa using hc2
    cases h
    exact ⟨rfl, hin, hx0⟩
  · rw [if_neg hc] at h
    cases h

theorem phase1Step_koRows_other (db0 : DBState) (chunk : List SentenceTaskDTO)
    (db' : DBState) (tr : SentenceTranslationV4) (s : Nat)
    (hWF0 : TransWF db0) (hinv : Phase1Inv db0 db')
    (hns : ∀ d, resolveSentenceId chunk tr.s_id = some d → d ≠ s) :
    koRows ((phase1Step chunk (existingKoTranslations db0 chunk) db' tr).subtitle_translations) s
      = koRows db'.subtitle_translations s := by
  cases hd : resolveSentenceId chunk tr.s_id with
  | none =>
    rw [phase1Step_skip chunk _ db' tr hd]
  | some d =>
    have hds : d ≠ s := hns d hd
    cases hpk : transMapLookup (existingKoTranslations db0 chunk) d with
    | some pk =>
      rw [phase1Step_update chunk _ db' tr d pk hd hpk]
      unfold patchTranslationText
      rw [koRows_patch]
      unfold transMapLookup at hpk
      cases hf : (existingKoTranslations db0 chunk).reverse.find?
          (fun t => t.subtitle_sentence_id == d) with
      | none => rw [hf] at hpk; cases hpk
      | some tf =>
        rw [hf] at hpk
        have htfid : tf.id = pk := by simpa using hpk
        have htfd : tf.subtitle_sentence_id = d := by
          have hpf := @List.find?_some SubtitleTranslationRow
            (fun t => t.subtitle_sentence_id == d) tf
            (existingKoTranslations db0 chunk).reverse hf
          simpa using hpf
        have htfmem : tf ∈ db0.subtitle_translations := by
          have h1 := List.mem_reverse.mp (List.mem_of_find?_eq_some hf)
          exact (List.mem_filter.mp h1).1
        have htfb : tf.id < db0.next_translation_id := hWF0.2 tf htfmem
        refine (List.map_congr_left ?_).trans (List.map_id _)
        intro t' ht'
        have ht'mem : t' ∈ db'.subtitle_translations := (List.mem_filter.mp ht').1
        have hpred := (List.mem_filter.mp ht').2
        rw [Bool.and_eq_true] at hpred
        have ht's : t'.subtitle_sentence_id = s := by simpa using hpred.1
        by_cases hid : t'.id = pk
        · exfalso
          obtain ⟨t0, ht0, hid0, hsid0, _⟩ :=
            hinv.2.2.2 t' ht'mem (by rw [hid, ← htfid]; exact htfb)
          have ht0f : t0 = tf :=
            List.inj_on_of_nodup_map hWF0.1 ht0 htfmem (by rw [hid0, hid, htfid])
          rw [ht0f] at hsid0
          rw [htfd] at hsid0
          exact hds (by rw [← hsid0, ht's])
        · simp [hid]
    | none =>
      rw [phase1Step_insert chunk _ db' tr d hd hpk]
      show koRows (db'.subtitle_translations ++ _) s = _
      rw [koRows_append]
      have hnil : koRows [SubtitleTranslationRow.mk db'.next_translation_id d "ko" tr.tr_ko] s
          = [] := by
        simp [koRows, hds]
      rw [hnil, List.append_nil]

theorem phase1_fold_other (db0 : DBState) (chunk : List SentenceTaskDTO) (s : Nat)
    (hWF0 : TransWF db0) :
    ∀ (l : List SentenceTranslationV4) (db' : DBState), Phase1Inv db0 db' →
      (∀ e ∈ l, e.s_id ≠ s) →
      koRows ((l.foldl (phase1Step chunk (existingKoTranslations db0 chunk))
          db').subtitle_translations) s = koRows db'.subtitle_translations s
      ∧ Phase1Inv db0 (l.foldl (phase1Step chunk (existingKoTranslations db0 chunk)) db') := by
  intro l
  induction l with
  | nil => intro db' hinv _; exact ⟨rfl, hinv⟩
  | cons e rest ih =>
    intro db' hinv hne
    rw [List.foldl_cons]
    have hinv2 := Phase1Inv_step chunk (existingKoTranslations db0 chunk) db0 db' e hinv
    have hns : ∀ d, resolveSentenceId chunk e.s_id = some d → d ≠ s := by
      intro d hd
      obtain ⟨rfl, _, _⟩ := resolveSentenceId_eq_some chunk e.s_id d hd
      exact hne e (List.mem_cons_self e rest)
    obtain ⟨hk, hinv3⟩ := ih _ hinv2 (fun x hx => hne x (List.mem_cons_of_mem e hx))
    exact ⟨hk.trans (phase1Step_koRows_other db0 chunk db' e s hWF0 hinv hns), hinv3⟩

theorem existing_filter_at (db0 : DBState) (chunk : List SentenceTaskDTO) (s : Nat)
    (hmem : s ∈ chunk.map (fun t => t.sentence_id)) :
    (existingKoTranslations db0 chunk).filter (fun t => t.subtitle_sentence_id == s)
      = koRows db0.subtitle_translations s := by
  unfold existingKoTranslations koRows
  rw [List.filter_filter]
  apply List.filter_congr
  intro t _
  by_cases hts : t.subtitle_sentence_id = s
  · have hc : (chunk.map (fun t => t.sentence_id)).contains s = true :=
      List.elem_iff.mpr hmem
    rw [hts, hc]
    simp
  · have hb : (t.subtitle_sentence_id == s) = false := by simp [hts]
    rw [hb]
    simp

theorem transMapLookup_at_nil (db0 : DBState) (chunk : List SentenceTaskDTO) (s : Nat)
    (hmem : s ∈ chunk.map (fun t => t.sentence_id))
    (h0 : koRows db0.subtitle_translations s = []) :
    transMapLookup (existingKoTranslations db0 chunk) s = none := by
  unfold transMapLookup
  have hfe : (existingKoTranslations db0 chunk).reverse.find?
      (fun t => t.subtitle_sentence_id == s) = none := by
    rw [List.find?_eq_none]
    intro t ht habs
    have htmem : t ∈ existingKoTranslations db0 chunk := List.mem_reverse.mp ht
    have hmem2 : t ∈ (existingKoTranslations db0 chunk).filter
        (fun t => t.subtitle_sentence_id == s) := List.mem_filter.mpr ⟨htmem, habs⟩
    rw [existing_filter_at db0 chunk s hmem, h0] at hmem2
    cases hmem2
  rw [hfe]
  rfl

theorem transMapLookup_at_single (db0 : DBState) (chunk : List SentenceTaskDTO) (s : Nat)
    (hmem : s ∈ chunk.map (fun t => t.sentence_id)) (t0 : SubtitleTranslationRow)
    (h0 : koRows db0.subtitle_translations s = [t0]) :
    transMapLookup (existingKoTranslations db0 chunk) s = some t0.id := by
  unfold transMapLookup
  have ht0 : t0 ∈ (existingKoTranslations db0 chunk).filter
      (fun t => t.subtitle_sentence_id == s) := by
    rw [existing_filter_at db0 chunk s hmem, h0]
    exact List.mem_cons_self t0 []
  have ht0e : t0 ∈ (existingKoTranslations db0 chunk).reverse :=
    List.mem_reverse.mpr (List.mem_filter.mp ht0).1
  have hsome : ((existingKoTranslations db0 chunk).reverse.find?
      (fun t => t.subtitle_sentence_id == s)).isSome = true :=
    List.find?_isSome.mpr ⟨t0, ht0e, (List.mem_filter.mp ht0).2⟩
  cases hf : (existingKoTranslations db0 chunk).reverse.find?
      (fun t => t.subtitle_sentence_id == s) with
  | none => rw [hf] at hsome; simp at hsome
  | some tf =>
    have hpf : (fun t => t.subtitle_sentence_id == s) tf = true :=
      @List.find?_some SubtitleTranslationRow (fun t => t.subtitle_sentence_id == s) tf
        (existingKoTranslations db0 chunk).reverse hf
    have htf : tf ∈ (existingKoTranslations db0 chunk).filter
        (fun t => t.subtitle_sentence_id == s) :=
      List.mem_filter.mpr
        ⟨List.mem_reverse.mp (List.mem_of_find?_eq_some hf), hpf⟩
    rw [existing_filter_at db0 chunk s hmem, h0] at htf
    have htf0 : tf = t0 := by simpa using htf
    rw [htf0]
    rfl

theorem phase1Step_target_update (db0 : DBState) (chunk : List SentenceTaskDTO)
    (db' : DBState) (tr : SentenceTranslationV4)
    (hrd : resolveSentenceId chunk tr.s_id = some tr.s_id)
    (hmem : tr.s_id ∈ chunk.map (fun t => t.sentence_id))
    (t0 : SubtitleTranslationRow)
    (h0 : koRows db0.subtitle_translations tr.s_id = [t0])
    (hcur : koRows db'.subtitle_translations tr.s_id
        = koRows db0.subtitle_translations tr.s_id) :
    koRows ((phase1Step chunk (existingKoTranslations db0 chunk) db' tr).subtitle_translations)
        tr.s_id
      = [{ t0 with translated_text := tr.tr_ko }] := by
  have hlk := transMapLookup_at_single db0 chunk tr.s_id hmem t0 h0
  rw [phase1Step_update chunk _ db' tr tr.s_id t0.id hrd hlk]
  unfold patchTranslationText
  rw [koRows_patch, hcur, h0]
  simp

theorem phase1Step_target_insert (db0 : DBState) (chunk : List SentenceTaskDTO)
    (db' : DBState) (tr : SentenceTranslationV4)
    (hrd : resolveSentenceId chunk tr.s_id = some tr.s_id)
    (hmem : tr.s_id ∈ chunk.map (fun t => t.sentence_id))
    (h0 : koRows db0.subtitle_translations tr.s_id = [])
    (hcur : koRows db'.subtitle_translations tr.s_id
        = koRows db0.subtitle_translations tr.s_id) :
    koRows ((phase1Step chunk (existingKoTranslations db0 chunk) db' tr).subtitle_translations)
        tr.s_id
      = [SubtitleTranslationRow.mk db'.next_translation_id tr.s_id "ko" tr.tr_ko] := by
  have hlk := transMapLookup_at_nil db0 chunk tr.s_id hmem h0
  rw [phase1Step_insert chunk _ db' tr tr.s_id hrd hlk]
  show koRows (db'.subtitle_translations ++ _) tr.s_id = _
  rw [koRows_append, hcur, h0]
  simp [koRows]

theorem savePhase1_upsert (db0 : DBState) (chunk : List SentenceTaskDTO)
    (trans : List SentenceTranslationV4) (tr : SentenceTranslationV4)
    (hWF0 : TransWF db0)
    (huniq : (koRows db0.subtitle_translations tr.s_id).length ≤ 1)
    (hnd : (trans.map (fun e => e.s_id)).Nodup)
    (htr : tr ∈ trans)
    (hmem : tr.s_id ∈ chunk.map (fun t => t.sentence_id))
    (hs0 : tr.s_id ≠ 0) :
    (∃ r1, koRows ((savePhase1 db0 chunk trans).subtitle_translations) tr.s_id = [r1]
        ∧ r1.translated_text = tr.tr_ko)
    ∧ TransWF (savePhase1 db0 chunk trans)
    ∧ (∀ t0, koRows db0.subtitle_translations tr.s_id = [t0] →
        koRows ((savePhase1 db0 chunk trans).subtitle_translations) tr.s_id
          = [{ t0 with translated_text := tr.tr_ko }])
    ∧ (koRows db0.subtitle_translations tr.s_id = [] →
        ∃ n, koRows ((savePhase1 db0 chunk trans).subtitle_translations) tr.s_id
          = [SubtitleTranslationRow.mk n tr.s_id "ko" tr.tr_ko]) := by
  have hrd : resolveSentenceId chunk tr.s_id = some tr.s_id := by
    unfold resolveSentenceId
    have hcond : ((chunk.map (fun t => t.sentence_id)).contains tr.s_id
        && (tr.s_id != 0)) = true := by
      rw [Bool.and_eq_true]
      exact ⟨List.elem_iff.mpr hmem, by simpa using hs0⟩
    rw [if_pos hcond]
  obtain ⟨pre, post, rfl⟩ := List.append_of_mem htr
  have hmaps : (pre ++ tr :: post).map (fun e => e.s_id)
      = pre.map (fun e => e.s_id) ++ tr.s_id :: post.map (fun e => e.s_id) := by
    rw [List.map_append, List.map_cons]
  rw [hmaps, List.nodup_append] at hnd
  obtain ⟨hpre, hcons, hdisj⟩ := hnd
  have hpre_ne : ∀ e ∈ pre, e.s_id ≠ tr.s_id := by
    intro e he habs
    exact hdisj (List.mem_map_of_mem _ he) (habs ▸ List.mem_cons_self _ _)
  have hpost_ne : ∀ e ∈ post, e.s_id ≠ tr.s_id := by
    intro e he habs
    have h1 := (List.nodup_cons.mp hcons).1
    exact h1 (habs ▸ List.mem_map_of_mem (fun e => e.s_id) he)
  unfold savePhase1
  rw [List.foldl_append, List.foldl_cons]
  obtain ⟨hAko, hAinv⟩ := phase1_fold_other db0 chunk tr.s_id hWF0 pre db0
    (Phase1Inv_init db0 hWF0) hpre_ne
  have hBinv := Phase1Inv_step chunk (existingKoTranslations db0 chunk) db0
    (pre.foldl (phase1Step chunk (existingKoTranslations db0 chunk)) db0) tr hAinv
  have hsplit : koRows db0.subtitle_translations tr.s_id = []
      ∨ ∃ t0, koRows db0.subtitle_translations tr.s_id = [t0] := by
    cases hkk : koRows db0.subtitle_translations tr.s_id with
    | nil => exact Or.inl rfl
    | cons a rest =>
      right
      have hlen := huniq
      rw [hkk] at hlen
      simp at hlen
      exact ⟨a, by rw [hlen]⟩
  rcases hsplit with hk | ⟨t0, hk⟩
  · have htgt := phase1Step_target_insert db0 chunk
      (pre.foldl (phase1Step chunk (existingKoTranslations db0 chunk)) db0) tr hrd hmem hk hAko
    obtain ⟨hCko, hCinv⟩ := phase1_fold_other db0 chunk tr.s_id hWF0 post _ hBinv hpost_ne
    have hfin := hCko.trans htgt
    refine ⟨⟨_, hfin, rfl⟩, ⟨hCinv.1, hCinv.2.1⟩, ?_, ?_⟩
    · intro t1 h1
      rw [hk] at h1
      simp at h1
    · intro _
      exact ⟨_, hfin⟩
  · have htgt := phase1Step_target_update db0 chunk
      (pre.foldl (phase1Step chunk (existingKoTranslations db0 chunk)) db0) tr hrd hmem t0 hk
      hAko
    obtain ⟨hCko, hCinv⟩ := phase1_fold_other db0 chunk tr.s_id hWF0 post _ hBinv hpost_ne
    have hfin := hCko.trans htgt
    refine ⟨⟨_, hfin, rfl⟩, ⟨hCinv.1, hCinv.2.1⟩, ?_, ?_⟩
    · intro t1 h1
      rw [hk] at h1
      have ht10 : t1 = t0 := by simpa using h1.symm
      rw [ht10]
      exact hfin
    · intro habs
      rw [hk] at habs
      simp at habs

theorem save_v3_results_translations (db : DBState) (chunk : List SentenceTaskDTO)
    (ai : AIWordEnhanceResponseV4) :
    (save_v3_results db chunk ai).1.subtitle_translations
        = (savePhase1 db chunk ai.trans).subtitle_translations
    ∧ (save_v3_results db chunk ai).1.next_translation_id
        = (savePhase1 db chunk ai.trans).next_translation_id := by
  obtain ⟨p2ex, p2map, p2next, p2we, p2tr, p2wlc, p2ntr⟩ :=
    savePhase2_go ai.exs (savePhase1 db chunk ai.trans) []
  have hkeys : ∀ ex ∈ ai.exs,
      (exampleMapLookup (savePhase2 (savePhase1 db chunk ai.trans) ai.exs).2 ex.gid).isSome
        = true := by
    intro ex hex
    apply exampleMapLookup_isSome_of_mem
    show ex.gid ∈ ((ai.exs.foldl phase2Step (savePhase1 db chunk ai.trans, [])).2).map Prod.fst
    rw [p2map]
    simp only [List.nil_append, exampleMapFrom_keys]
    exact List.mem_map_of_mem _ hex
  obtain ⟨_, _, it, _, itr⟩ :=
    savePhase3_go (batchWordIds chunk) ai.exs
      (savePhase2 (savePhase1 db chunk ai.trans) ai.exs).2 hkeys ai.words
      (savePhase2 (savePhase1 db chunk ai.trans) ai.exs).1 0
  unfold save_v3_results savePhase3
  exact ⟨it.trans p2tr, itr.trans p2ntr⟩

/-- C4: phase-1 reconciliation is an idempotent upsert.  For a response
entry resolving to a batch sentence (under the schema's invariants:
distinct bounded keys, at most one existing `(sentence, "ko")` row, distinct
response sentence ids, a nonzero sentence id): an existing row is updated in
place, otherwise one row is inserted; and after running `_save_v3_results`
once or twice with the identical response there is exactly one
`SubtitleTranslation` row for that `(sentence, "ko")` key, carrying the
response's text — never a duplicate. -/
theorem save_v3_translation_upsert_idempotent
    (db : DBState) (chunk : List SentenceTaskDTO) (A : AIWordEnhanceResponseV4)
    (tr : SentenceTranslationV4)
    (hWF : TransWF db)
    (huniq : (koRows db.subtitle_translations tr.s_id).length ≤ 1)
    (hnd : (A.trans.map (fun e => e.s_id)).Nodup)
    (htr : tr ∈ A.trans)
    (hmem : tr.s_id ∈ chunk.map (fun t => t.sentence_id))
    (hs0 : tr.s_id ≠ 0) :
    (∀ t0, koRows db.subtitle_translations tr.s_id = [t0] →
        koRows ((save_v3_results db chunk A).1.subtitle_translations) tr.s_id
          = [{ t0 with translated_text := tr.tr_ko }])
    ∧ (koRows db.subtitle_translations tr.s_id = [] →
        ∃ n, koRows ((save_v3_results db chunk A).1.subtitle_translations) tr.s_id
          = [SubtitleTranslationRow.mk n tr.s_id "ko" tr.tr_ko])
    ∧ (koRows ((save_v3_results db chunk A).1.subtitle_translations) tr.s_id).map
        (fun t => t.translated_text) = [tr.tr_ko]
    ∧ (koRows ((save_v3_results (save_v3_results db chunk A).1 chunk
          A).1.subtitle_translations) tr.s_id).map
        (fun t => t.translated_text) = [tr.tr_ko] := by
  obtain ⟨e1, e2⟩ := save_v3_results_translations db chunk A
  obtain ⟨⟨r1, hr1, hr1t⟩, hWF1, hupd, hins⟩ :=
    savePhase1_upsert db chunk A.trans tr hWF huniq hnd htr hmem hs0
  have hko1 : koRows ((save_v3_results db chunk A).1.subtitle_translations) tr.s_id
      = [r1] := by
    rw [e1]
    exact hr1
  have hWF1b : TransWF (save_v3_results db chunk A).1 := by
    unfold TransWF
    rw [e1, e2]
    exact hWF1
  obtain ⟨e1b, _⟩ := save_v3_results_translations (save_v3_results db chunk A).1 chunk A
  obtain ⟨_, _, hupd2, _⟩ :=
    savePhase1_upsert (save_v3_results db chunk A).1 chunk A.trans tr hWF1b
      (by rw [hko1]; simp) hnd htr hmem hs0
  have hko2 : koRows ((save_v3_results (save_v3_results db chunk A).1 chunk
      A).1.subtitle_translations) tr.s_id
      = [{ r1 with translated_text := tr.tr_ko }] := by
    rw [e1b]
    exact hupd2 r1 hko1
  refine ⟨?_, ?_, ?_, ?_⟩
  · intro t0 h0
    rw [e1]
    exact hupd t0 h0
  · intro h0
    obtain ⟨n, hn⟩ := hins h0
    exact ⟨n, by rw [e1]; exact hn⟩
  · rw [hko1]
    simp [hr1t]
  · rw [hko2]
    simp

/-- Witness for C4 on the one-word store: one run leaves exactly one Korean
translation row for sentence 2 with the response's text, and an identical
second run leaves the same single row. -/
theorem save_v3_translation_upsert_idempotent_witness :
    (koRows ((save_v3_results oneWordDB c4Chunk c4Resp).1.subtitle_translations) 2).map
        (fun t => t.translated_text) = ["역까지 걷다"]
    ∧ (koRows ((save_v3_results (save_v3_results oneWordDB c4Chunk c4Resp).1 c4Chunk
          c4Resp).1.subtitle_translations) 2).map
        (fun t => t.translated_text) = ["역까지 걷다"] :=
  have h := save_v3_translation_upsert_idempotent oneWordDB c4Chunk c4Resp
    { s_id := 2, tr_ko := "역까지 걷다" }
    ⟨by decide, by decide⟩ (by decide) (by decide) (by decide) (by decide) (by decide)
  ⟨h.2.2.1, h.2.2.2⟩

/-! ## Learning-content lemmas -/

theorem exampleMapLookup_cons (q : Nat × Nat) (emap : List (Nat × Nat)) (g : Nat) :
    exampleMapLookup (q :: emap) g
      = (exampleMapLookup emap g).or (if q.1 == g then some q.2 else none) := by
  unfold exampleMapLookup
  rw [List.reverse_cons, List.find?_append]
  cases hf : emap.reverse.find? (fun p => p.1 == g) with
  | none =>
    simp only [Option.none_or]
    cases hq : (q.1 == g) with
    | false => simp [List.find?, hq, Option.or]
    | true => simp [List.find?, hq, Option.or]
  | some p1 =>
    simp [Option.or]

theorem exampleMapFrom_lookup :
    ∀ (exs : List ExampleV4) (n g eid : Nat),
      exampleMapLookup (exampleMapFrom n exs) g = some eid →
      ∃ ex1 ∈ exs, ex1.gid = g
        ∧ ExampleSentenceRow.mk eid ex1.ex_ja ∈ exampleRowsFrom n exs
        ∧ n ≤ eid := by
  intro exs
  induction exs with
  | nil =>
    intro n g eid h
    unfold exampleMapFrom exampleMapLookup at h
    cases h
  | cons ex rest ih =>
    intro n g eid h
    unfold exampleMapFrom at h
    rw [exampleMapLookup_cons] at h
    cases hl : exampleMapLookup (exampleMapFrom (n + 1) rest) g with
    | some v =>
      rw [hl] at h
      have hv : v = eid := by
        simpa [Option.or] using h
      obtain ⟨ex1, hex1, hgid, hrow, hle⟩ := ih (n + 1) g eid (by rw [hl, hv])
      refine ⟨ex1, List.mem_cons_of_mem ex hex1, hgid, ?_, by omega⟩
      unfold exampleRowsFrom
      exact List.mem_cons_of_mem _ hrow
    | none =>
      rw [hl] at h
      simp only [Option.none_or] at h
      cases hq : (ex.gid == g) with
      | false =>
        rw [hq] at h
        simp at h
      | true =>
        rw [hq] at h
        simp only [if_true] at h
        have heid : n = eid := by simpa using h
        refine ⟨ex, List.mem_cons_self ex rest, by simpa using hq, ?_, by omega⟩
        unfold exampleRowsFrom
        rw [← heid]
        exact List.mem_cons_self _ _

theorem savePhase3_rows (word_ids : List Nat) (exs : List ExampleV4)
    (emap : List (Nat × Nat))
    (hkeys : ∀ ex ∈ exs, (exampleMapLookup emap ex.gid).isSome = true) :
    ∀ (ws : List WordDefinitionV4) (db : DBState) (n : Nat),
      ∃ new, (ws.foldl (phase3Step word_ids exs emap) (db, n)).1.word_learning_contents
          = db.word_learning_contents ++ new
      ∧ (ws.foldl (phase3Step word_ids exs emap) (db, n)).2 = n + new.length
      ∧ ∀ row ∈ new, ∃ dr ∈ ws,
          row.word_entry_id = dr.w_id ∧ word_ids.contains dr.w_id = true ∧
          ∃ ex0, exs.find? (fun ex => ex.wids.contains dr.w_id) = some ex0 ∧
            dr.w_id ∈ ex0.wids ∧
            ∃ eid, row.example_id = some eid ∧
              exampleMapLookup emap ex0.gid = some eid := by
  intro ws
  induction ws with
  | nil =>
    intro db n
    exact ⟨[], by simp, by simp, fun row hrow => absurd hrow (List.not_mem_nil row)⟩
  | cons dr rest ih =>
    intro db n
    rw [List.foldl_cons]
    cases hw : wordMapGet db word_ids dr.w_id with
    | none =>
      have hstep : phase3Step word_ids exs emap (db, n) dr = (db, n) := by
        unfold phase3Step
        rw [hw]
      rw [hstep]
      obtain ⟨new, h1, h2, h3⟩ := ih db n
      refine ⟨new, h1, h2, fun row hrow => ?_⟩
      obtain ⟨dr1, hdr1, hrest⟩ := h3 row hrow
      exact ⟨dr1, List.mem_cons_of_mem dr hdr1, hrest⟩
    | some we =>
      cases hf : exs.find? (fun ex => ex.wids.contains dr.w_id) with
      | none =>
        have hstep : phase3Step word_ids exs emap (db, n) dr
            = (patchWordMetadata we.id dr.r dr.lv db, n) := by
          unfold phase3Step
          simp only [hw, hf]
        rw [hstep]
        obtain ⟨new, h1, h2, h3⟩ := ih (patchWordMetadata we.id dr.r dr.lv db) n
        refine ⟨new, h1, h2, fun row hrow => ?_⟩
        obtain ⟨dr1, hdr1, hrest⟩ := h3 row hrow
        exact ⟨dr1, List.mem_cons_of_mem dr hdr1, hrest⟩
      | some ex0 =>
        cases hl : exampleMapLookup emap ex0.gid with
        | none =>
          have hmem := List.mem_of_find?_eq_some hf
          have habs := hkeys ex0 hmem
          rw [hl] at habs
          simp at habs
        | some eid =>
          have hstep : phase3Step word_ids exs emap (db, n) dr
              = ({ patchWordMetadata we.id dr.r dr.lv db with
                    word_learning_contents :=
                      (patchWordMetadata we.id dr.r dr.lv db).word_learning_contents ++
                        [{ word_entry_id := we.id, example_id := some eid, meaning := dr.m
                           usage_tip := "JLPT " ++ dr.lv ++ " 수준의 단어입니다."
                           language_code := "ko" }] }, n + 1) := by
            unfold phase3Step
            simp only [hw, hf, hl]
          rw [hstep]
          obtain ⟨new, h1, h2, h3⟩ :=
            ih ({ patchWordMetadata we.id dr.r dr.lv db with
                    word_learning_contents :=
                      (patchWordMetadata we.id dr.r dr.lv db).word_learning_contents ++
                        [{ word_entry_id := we.id, example_id := some eid, meaning := dr.m
                           usage_tip := "JLPT " ++ dr.lv ++ " 수준의 단어입니다."
                           language_code := "ko" }] }) (n + 1)
          have hcont : word_ids.contains dr.w_id = true := by
            unfold wordMapGet at hw
            by_cases hc : word_ids.contains dr.w_id
            · exact hc
            · rw [if_neg hc] at hw
              cases hw
          have hweid : we.id = dr.w_id := by
            unfold wordMapGet at hw
            rw [if_pos hcont] at hw
            have hps := @List.find?_some WordEntryRow (fun e => decide (e.id = dr.w_id)) we
              db.word_entries hw
            simpa using hps
          have hp0 : ex0.wids.contains dr.w_id = true := by
            have h0 := @List.find?_some ExampleV4 (fun ex => ex.wids.contains dr.w_id) ex0 exs hf
            simpa using h0
          refine ⟨{ word_entry_id := we.id, example_id := some eid, meaning := dr.m
                    usage_tip := "JLPT " ++ dr.lv ++ " 수준의 단어입니다."
                    language_code := "ko" } :: new, ?_, ?_, ?_⟩
          · rw [h1]
            unfold patchWordMetadata
            simp [List.append_assoc]
          · rw [h2]
            simp
            omega
          · intro row hrow
            rcases List.mem_cons.mp hrow with rfl | hrow
            · exact ⟨dr, List.mem_cons_self dr rest, hweid, hcont,
                ex0, hf, List.elem_iff.mp hp0, eid, rfl, hl⟩
            · obtain ⟨dr1, hdr1, hrest⟩ := h3 row hrow
              exact ⟨dr1, List.mem_cons_of_mem dr hdr1, hrest⟩

/-- C7: every `WordLearningContent` row inserted by reconciliation references
an `ExampleSentence` created in this run from the first response group (by
response order) whose `wids` contain that word's id; a word definition whose
id is not among the batch's word ids, or not contained in any group, inserts
nothing; and the returned success count is exactly the number of rows
inserted.  (Hypotheses: distinct response `gid`s and the store's example
keys bounded by the autoincrement counter.) -/
theorem save_v3_learning_content (db : DBState) (chunk : List SentenceTaskDTO)
    (A : AIWordEnhanceResponseV4)
    (hgid : (A.exs.map (fun ex => ex.gid)).Nodup)
    (hexWF : ∀ e ∈ db.example_sentences, e.id < db.next_example_id) :
    ∃ new, (save_v3_results db chunk A).1.word_learning_contents
        = db.word_learning_contents ++ new
    ∧ new.length = (save_v3_results db chunk A).2
    ∧ ∀ row ∈ new, ∃ dr ∈ A.words,
        row.word_entry_id = dr.w_id ∧ dr.w_id ∈ batchWordIds chunk ∧
        ∃ ex0, A.exs.find? (fun ex => ex.wids.contains dr.w_id) = some ex0 ∧
          dr.w_id ∈ ex0.wids ∧
          ∃ eid, row.example_id = some eid ∧
            ∃ er ∈ (save_v3_results db chunk A).1.example_sentences,
              er.id = eid ∧ er.sentence_text = ex0.ex_ja ∧ er ∉ db.example_sentences := by
  obtain ⟨p2ex, p2map, p2next, p2we, p2tr, p2wlc, p2ntr⟩ :=
    savePhase2_go A.exs (savePhase1 db chunk A.trans) []
  have hkeys : ∀ ex ∈ A.exs,
      (exampleMapLookup (savePhase2 (savePhase1 db chunk A.trans) A.exs).2 ex.gid).isSome
        = true := by
    intro ex hex
    apply exampleMapLookup_isSome_of_mem
    show ex.gid ∈ ((A.exs.foldl phase2Step (savePhase1 db chunk A.trans, [])).2).map Prod.fst
    rw [p2map]
    simp only [List.nil_append, exampleMapFrom_keys]
    exact List.mem_map_of_mem _ hex
  obtain ⟨new, h1, h2, h3⟩ :=
    savePhase3_rows (batchWordIds chunk) A.exs
      (savePhase2 (savePhase1 db chunk A.trans) A.exs).2 hkeys A.words
      (savePhase2 (savePhase1 db chunk A.trans) A.exs).1 0
  obtain ⟨_, _, _, hie, _⟩ :=
    savePhase3_go (batchWordIds chunk) A.exs
      (savePhase2 (savePhase1 db chunk A.trans) A.exs).2 hkeys A.words
      (savePhase2 (savePhase1 db chunk A.trans) A.exs).1 0
  obtain ⟨f1, f3, f5, f6⟩ := savePhase1_frame db chunk A.trans
  have p2ex' : (savePhase2 (savePhase1 db chunk A.trans) A.exs).1.example_sentences
      = (savePhase1 db chunk A.trans).example_sentences ++
        exampleRowsFrom (savePhase1 db chunk A.trans).next_example_id A.exs := p2ex
  have p2map' : (savePhase2 (savePhase1 db chunk A.trans) A.exs).2
      = [] ++ exampleMapFrom (savePhase1 db chunk A.trans).next_example_id A.exs := p2map
  have p2wlc' : (savePhase2 (savePhase1 db chunk A.trans) A.exs).1.word_learning_contents
      = (savePhase1 db chunk A.trans).word_learning_contents := p2wlc
  refine ⟨new, ?_, ?_, ?_⟩
  · show (savePhase3 _ _ _ _ _).1.word_learning_contents = _
    unfold savePhase3
    rw [h1, p2wlc', f5]
  · show new.length = (savePhase3 _ _ _ _ _).2
    unfold savePhase3
    rw [h2]
    simp
  · intro row hrow
    obtain ⟨dr, hdr, hweid, hcont, ex0, hf, hwid, eid, hexid, hl⟩ := h3 row hrow
    rw [p2map', List.nil_append] at hl
    obtain ⟨ex1, hex1, hgid1, hrow1, hle⟩ :=
      exampleMapFrom_lookup A.exs (savePhase1 db chunk A.trans).next_example_id ex0.gid eid hl
    have hex0mem : ex0 ∈ A.exs := List.mem_of_find?_eq_some hf
    have hex10 : ex1 = ex0 := List.inj_on_of_nodup_map hgid hex1 hex0mem hgid1
    rw [hex10] at hrow1
    refine ⟨dr, hdr, hweid, List.elem_iff.mp hcont, ex0, hf, hwid, eid, hexid,
      ExampleSentenceRow.mk eid ex0.ex_ja, ?_, rfl, rfl, ?_⟩
    · show ExampleSentenceRow.mk eid ex0.ex_ja ∈ (savePhase3 _ _ _ _ _).1.example_sentences
      unfold savePhase3
      rw [hie, p2ex']
      exact List.mem_append.mpr (Or.inr hrow1)
    · intro habs
      have hb := hexWF _ habs
      have hnx : (savePhase1 db chunk A.trans).next_example_id = db.next_example_id := f6
      rw [hnx] at hle
      simp only [] at hb
      omega

/-- The chunk and response for the C7 witness: one word (id 3) in one
sentence, one definition for it, one example group containing it. -/
def c7Resp : AIWordEnhanceResponseV4 :=
  { trans := []
    words := [{ w_id := 3, m := "걷다", r := "あるく", lv := "N5" }]
    exs := [{ gid := 1, ex_ja := "毎日駅まで歩く。", ex_ko := "매일 역까지 걷는다.", wids := [3] }] }

/-- Witness for C7 on the one-word store. -/
theorem save_v3_learning_content_witness :
    ∃ new, (save_v3_results oneWordDB c4Chunk c7Resp).1.word_learning_contents
        = oneWordDB.word_learning_contents ++ new
    ∧ new.length = (save_v3_results oneWordDB c4Chunk c7Resp).2
    ∧ ∀ row ∈ new, ∃ dr ∈ c7Resp.words,
        row.word_entry_id = dr.w_id ∧ dr.w_id ∈ batchWordIds c4Chunk ∧
        ∃ ex0, c7Resp.exs.find? (fun ex => ex.wids.contains dr.w_id) = some ex0 ∧
          dr.w_id ∈ ex0.wids ∧
          ∃ eid, row.example_id = some eid ∧
            ∃ er ∈ (save_v3_results oneWordDB c4Chunk c7Resp).1.example_sentences,
              er.id = eid ∧ er.sentence_text = ex0.ex_ja ∧ er ∉ oneWordDB.example_sentences :=
  save_v3_learning_content oneWordDB c4Chunk c7Resp (by decide) (by decide)

end SubtitleAnalyzer
